import Mathlib

/-!
Shallow embedding of the megacli Python library (src/megacli/__init__.py).

Strings are modelled as Lean `String` / `List Char`; Python integers as `Int`
or `Nat` (Python integers are unbounded); Python floats as exact rationals
(`ℚ`), which agrees with the source for the magnitudes the program handles;
fallible Python code (places where an exception could propagate, such as
`int(...)` on a captured group) is modelled with `Option`/`Except`.

Each regular expression of the source is hand-translated to a deterministic
character-level matcher; the patterns used by the source never need
backtracking beyond the ordered-alternation choices encoded below.
-/

namespace MegaCli

/-- Python `\s` restricted to the ASCII whitespace characters
(space, tab, newline, carriage return, vertical tab, form feed). -/
def isPySpace (c : Char) : Bool :=
  c = ' ' || c = '\t' || c = '\n' || c = '\r' || c = Char.ofNat 11 || c = Char.ofNat 12

/-- The apostrophe character, used by the key-normalisation rule of
`__to_property` (the `.replace("'s", '')` call). -/
def aposC : Char := Char.ofNat 39

/-- Models matching a literal at the start of the input: returns the rest of
the input after the literal, or `none` when the literal is not a prefix. -/
def takePre? : List Char → List Char → Option (List Char)
  | [], cs => Option.some cs
  | _ :: _, [] => Option.none
  | p :: ps, c :: cs => if c = p then takePre? ps cs else Option.none

/-- Models the greedy group `(\d+)` at the start of the input: the maximal
leading digit run (which must be non-empty) and the rest. -/
def leadDigits (cs : List Char) : Option (List Char × List Char) :=
  let d := cs.takeWhile Char.isDigit
  if d.isEmpty then Option.none else Option.some (d, cs.dropWhile Char.isDigit)

/-- Numeric value of a digit string, as computed by Python `int`. -/
def natOfDigits (ds : List Char) : Nat :=
  ds.foldl (fun a c => a * 10 + (c.toNat - 48)) 0

/-- Models Python `int(s)` on a string: fails (raises `ValueError`) unless the
string is a non-empty run of digits, which is the only shape the source ever
passes (regex captures of `\d+`). -/
def strToNat? (ds : List Char) : Option Nat :=
  if ds.isEmpty then Option.none
  else if ds.all Char.isDigit then Option.some (natOfDigits ds)
  else Option.none

/-- Exact value of Python `float` applied to a captured number made of an
integer part and an optional fractional part, modelled as a rational. -/
def floatOfParts? (ip : List Char) (fp : Option (List Char)) : Option ℚ :=
  (strToNat? ip).bind fun n =>
    match fp with
    | Option.none => Option.some ((n : ℚ))
    | Option.some f => (strToNat? f).map fun m => (n : ℚ) + (m : ℚ) / ((10 : ℚ) ^ f.length)

/-- How an optional captured fraction appears in the raw text: a dot followed
by its digits, or nothing. -/
def fracL (fopt : Option (List Char)) : List Char :=
  match fopt with
  | Option.some fs => '.' :: fs
  | Option.none => []

/-- Exact numeric value of a number with an optional fraction (the value
Python `float` parses from the size capture). -/
def sizeQ (ds : List Char) (fopt : Option (List Char)) : ℚ :=
  (natOfDigits ds : ℚ) +
    (match fopt with
     | Option.some fs => (natOfDigits fs : ℚ) / ((10 : ℚ) ^ fs.length)
     | Option.none => 0)

/-- Models Python `str.replace(a, b)` for a single-character pattern and a
single-character replacement. -/
def replaceChar (a b : Char) (cs : List Char) : List Char :=
  cs.map (fun c => if c = a then b else c)

/-- Models Python `str.replace(a, '')` for a single-character pattern. -/
def removeChar (a : Char) (cs : List Char) : List Char :=
  cs.filter (fun c => ¬(c = a))

/-- Models Python `str.replace('&', 'and')`. -/
def expandAmp (cs : List Char) : List Char :=
  cs.foldr (fun c acc => if c = '&' then 'a' :: 'n' :: 'd' :: acc else c :: acc) []

/-- Models Python `str.replace(<apostrophe>s, '')`: removes non-overlapping
occurrences of the two-character pattern, scanning left to right. -/
def removeAposS : List Char → List Char
  | [] => []
  | [c] => [c]
  | c1 :: c2 :: t =>
    if c1 = aposC ∧ c2 = 's' then removeAposS t else c1 :: removeAposS (c2 :: t)

/-- Key normalisation of `MegaCLI.__to_property` (line 85 of the source):
`key.replace(' ', '_').replace("'s", '').replace('.', '').replace('/', '_').replace('&', 'and')`. -/
def normKey (key : String) : String :=
  String.mk (expandAmp (replaceChar '/' '_' (removeChar '.' (removeAposS (replaceChar ' ' '_' key.data)))))

/-- Coerced property values: `None`, `bool`, `int`, `float` (exact rational)
or the raw string, mirroring the possible results of `__to_property`. -/
inductive PValue
  | none
  | bool (b : Bool)
  | int (n : Int)
  | float (q : ℚ)
  | str (s : String)
deriving DecidableEq

/-- Matcher for `^(\d+)\s*%?$` (the integer rule of `__to_property`). -/
def matchIntPct (cs : List Char) : Option (List Char) :=
  match leadDigits cs with
  | Option.none => Option.none
  | Option.some (d, rest) =>
    match rest.dropWhile isPySpace with
    | [] => Option.some d
    | [c] => if c = '%' then Option.some d else Option.none
    | _ => Option.none

/-- Consumes the optional non-capturing fragment `(?:\.\d+)?`: when the input
starts with a dot followed by at least one digit the fragment is consumed,
otherwise it matches empty and the input is left alone. -/
def fracSkip (rest : List Char) : List Char :=
  match rest with
  | '.' :: rs =>
    match leadDigits rs with
    | Option.some (_, r) => r
    | Option.none => rest
  | _ => rest

/-- Matcher for `^(\d+)(?:\.\d+)?\s*%?$` (the float rule of `__to_property`).
Only the integer part is captured, exactly as in the source pattern. -/
def matchFloat (cs : List Char) : Option (List Char) :=
  match leadDigits cs with
  | Option.none => Option.none
  | Option.some (d, rest) =>
    match (fracSkip rest).dropWhile isPySpace with
    | [] => Option.some d
    | [c] => if c = '%' then Option.some d else Option.none
    | _ => Option.none

/-- Checks whether one of the source's substrings occurs in the input
(models `re.match('.*temperature.*', key)` style containment). -/
def containsSub (hay needle : List Char) : Bool :=
  match hay with
  | [] => needle.isEmpty
  | _ :: t => (takePre? needle hay).isSome || containsSub t needle

/-- Matcher for `^(\d+)\s*(?:c|degree celcius)` (temperature rule).
The alternation tries the literal `c` first, then `degree celcius`; the
pattern is not anchored at the end. -/
def matchTemp (cs : List Char) : Option (List Char) :=
  match leadDigits cs with
  | Option.none => Option.none
  | Option.some (d, rest) =>
    let rest2 := rest.dropWhile isPySpace
    if (takePre? ['c'] rest2).isSome || (takePre? ("degree celcius".data) rest2).isSome then
      Option.some d
    else Option.none

/-- Consumes the optional fraction for the size pattern, capturing its digits
when present (the size pattern captures `(\d+(?:\.\d+)?)`). -/
def fracTake (rest : List Char) : Option (List Char) × List Char :=
  match rest with
  | '.' :: rs =>
    match leadDigits rs with
    | Option.some (f, r) => (Option.some f, r)
    | Option.none => (Option.none, rest)
  | _ => (Option.none, rest)

/-- Ordered alternation `(b|kb|mb|gb|tb|pb)` of the size pattern: Python tries
the alternatives left to right at the current position. -/
def unitMatch (cs : List Char) : Option String :=
  if (takePre? ['b'] cs).isSome then Option.some "b"
  else if (takePre? ['k', 'b'] cs).isSome then Option.some "kb"
  else if (takePre? ['m', 'b'] cs).isSome then Option.some "mb"
  else if (takePre? ['g', 'b'] cs).isSome then Option.some "gb"
  else if (takePre? ['t', 'b'] cs).isSome then Option.some "tb"
  else if (takePre? ['p', 'b'] cs).isSome then Option.some "pb"
  else Option.none

/-- Matcher for `^(\d+(?:\.\d+)?)\s*(b|kb|mb|gb|tb|pb)` (size rule); yields
the integer digits, the optional fraction digits and the matched unit. -/
def matchSize (cs : List Char) : Option (List Char × Option (List Char) × String) :=
  match leadDigits cs with
  | Option.none => Option.none
  | Option.some (d, rest) =>
    let p := fracTake rest
    match unitMatch (p.2.dropWhile isPySpace) with
    | Option.some u => Option.some (d, p.1, u)
    | Option.none => Option.none

/-- Unit words of the duration pattern, in the order of the source. -/
def timeUnits : List String :=
  ["s", "sec", "secs", "seconds", "m", "min", "mins", "minutes",
   "h", "hour", "hours", "d", "day", "days"]

/-- Matcher for `^(\d+)\s*(s|sec|secs|seconds|m|min|mins|minutes|h|hour|hours|d|day|days)$`
(duration rule). Because the pattern is anchored at the end, the text after
the optional whitespace must be exactly one of the unit words. -/
def matchTime (cs : List Char) : Option (List Char × String) :=
  match leadDigits cs with
  | Option.none => Option.none
  | Option.some (d, rest) =>
    let u := String.mk (rest.dropWhile isPySpace)
    if u ∈ timeUnits then Option.some (d, u) else Option.none

/-- Size multiplier selection of `__to_property` (lines 118-128): starts at 1
and is replaced for the units `kb` to `pb`; the unit `b` keeps 1. -/
def sizeMult (u : String) : ℚ :=
  if u = "kb" then 1024
  else if u = "mb" then 1024 * 1024
  else if u = "gb" then 1024 * 1024 * 1024
  else if u = "tb" then 1024 * 1024 * 1024 * 1024
  else if u = "pb" then 1024 * 1024 * 1024 * 1024 * 1024
  else 1

/-- Duration multiplier actually used by the source (line 146): the branches
on lines 139-144 assign a misspelled variable `mutiplier`, which is never
read, so the `multiplier` initialised to 1 on line 138 is what multiplies the
parsed count for every unit. -/
def timeMultiplierUsed : Int := 1

/-- Value coercion `MegaCLI.__to_property` (lines 75-148): ordered pattern
rules applied to the raw value, returning the normalised key and the coerced
value; `none` models an exception escaping (which the totality theorem below
shows never happens). -/
def toProperty (key value : String) : Option (String × PValue) :=
  let k := normKey key
  if value = "n/a" ∨ value = "none" then Option.some (k, PValue.none)
  else if value = "yes" then Option.some (k, PValue.bool true)
  else if value = "no" then Option.some (k, PValue.bool false)
  else
    match matchIntPct value.data with
    | Option.some d => (strToNat? d).map fun n => (k, PValue.int (Int.ofNat n))
    | Option.none =>
      match matchFloat value.data with
      | Option.some d => (strToNat? d).map fun n => (k, PValue.float ((n : ℚ)))
      | Option.none =>
        match (if containsSub key.data ("temperature".data) then matchTemp value.data else Option.none) with
        | Option.some d => (strToNat? d).map fun n => (k, PValue.int (Int.ofNat n))
        | Option.none =>
          match matchSize value.data with
          | Option.some (ip, fp, u) =>
            (floatOfParts? ip fp).map fun q => (k, PValue.float (q * sizeMult u))
          | Option.none =>
            match matchTime value.data with
            | Option.some (d, _u) =>
              (strToNat? d).map fun t => (k, PValue.int ((Int.ofNat t) * timeMultiplierUsed))
            | Option.none => Option.some (k, PValue.str value)

/-- Mapping `MegaCLI.__raid_level` (lines 52-73): a dictionary lookup on the
coerced value; only the five listed phrase strings map to a level. -/
def raidLevelOf (v : PValue) : Option Int :=
  match v with
  | PValue.str s =>
    if s = "primary-0, secondary-0, raid level qualifier-0" then Option.some 0
    else if s = "primary-1, secondary-0, raid level qualifier-0" then Option.some 1
    else if s = "primary-5, secondary-0, raid level qualifier-3" then Option.some 5
    else if s = "primary-6, secondary-0, raid level qualifier-3" then Option.some 6
    else if s = "primary-1, secondary-3, raid level qualifier-0" then Option.some 10
    else Option.none
  | _ => Option.none

/-! ### Output normalisation and process execution (`MegaCLI.execute`) -/

/-- Models Python `str.rstrip()`. -/
def pyRstrip (cs : List Char) : List Char :=
  (cs.reverse.dropWhile isPySpace).reverse

/-- Models `re.sub('(^\s*|\s*$)', '', line)`, which strips leading and
trailing whitespace from a line. -/
def pyStrip (cs : List Char) : List Char :=
  pyRstrip (cs.dropWhile isPySpace)

/-- Scanner for `re.sub('\s*:\s*', ':', s)`: each colon together with the
whitespace around it is replaced by a bare colon. The first argument records
whether the scanner is consuming the whitespace that follows a replaced
colon; the second accumulates (reversed) pending whitespace that may yet turn
out to precede a colon. -/
def ccAux : Bool → List Char → List Char → List Char
  | _, sp, [] => sp.reverse
  | skipMode, sp, c :: cs =>
    if isPySpace c then
      if skipMode then ccAux true sp cs
      else ccAux false (c :: sp) cs
    else if c = ':' then ':' :: ccAux true [] cs
    else sp.reverse ++ c :: ccAux false [] cs

/-- Models `re.sub('\s*:\s*', ':', s)`. -/
def collapseColons (cs : List Char) : List Char :=
  ccAux false [] cs

/-- Removes one trailing colon, as `re.sub(':$', '', s)` does. -/
def dropColonEnd (cs : List Char) : List Char :=
  match cs.reverse with
  | ':' :: t => t.reverse
  | _ => cs

/-- Models Python `s.split("\n")`. -/
def splitNl (cs : List Char) : List (List Char) :=
  match cs with
  | [] => [[]]
  | c :: t =>
    if c = '\n' then [] :: splitNl t
    else
      match splitNl t with
      | [] => [[c]]
      | h :: r => (c :: h) :: r

/-- Per-line normalisation of `execute` (line 50): strip the line, collapse
`key : value` spacing to `key:value`, lower-case, then drop one trailing
colon (the source applies `.lower()` before the trailing-colon removal). -/
def normLine (cs : List Char) : List Char :=
  dropColonEnd ((collapseColons (pyStrip cs)).map Char.toLower)

/-- Output normalisation of `execute`: split the right-stripped stdout on
newlines, drop empty lines (`filter(None, ...)`), normalise each line. -/
def normalizeLines (out : String) : List String :=
  (((splitNl (pyRstrip out.data)).filter (fun l => ¬l.isEmpty)).map
    (fun l => String.mk (normLine l)))

/-- `MegaCLI.execute` (lines 29-50), as a function of the spawned process's
exit status, stdout and stderr: a non-zero (truthy) status raises a
`MegaCLIError` carrying the exit code and the right-stripped stderr text
(modelled as `Except.error`); a zero status returns the normalised stdout
lines. -/
def execute (returncode : Int) (out err : String) : Except (Int × String) (List String) :=
  if returncode ≠ 0 then Except.error (returncode, String.mk (pyRstrip err.data))
  else Except.ok (normalizeLines out)

/-! ### Records and the per-output-kind block parsers

Records model Python dictionaries as insertion-ordered association lists;
`rset` overwrites in place or appends, exactly like dictionary assignment. -/

/-- A parsed record: an insertion-ordered mapping from normalised property
names to coerced values. -/
abbrev Record := List (String × PValue)

/-- Dictionary membership `k in d`. -/
def rhas (r : Record) (k : String) : Bool :=
  r.any (fun p => p.1 = k)

/-- Dictionary assignment `d[k] = v` (updates in place, else appends). -/
def rset : Record → String → PValue → Record
  | [], k, v => [(k, v)]
  | (k0, v0) :: t, k, v =>
    if k0 = k then (k0, v) :: t else (k0, v0) :: rset t k v

/-- Models `line.split(':', 1)` restricted to the case `len(fields) > 1`:
the text before the first colon and the text after it. -/
def splitColonOnce : List Char → Option (List Char × List Char)
  | [] => Option.none
  | c :: t =>
    if c = ':' then Option.some ([], t)
    else (splitColonOnce t).map (fun p => (c :: p.1, p.2))

/-- Runs the per-line body of a parser's `for` loop over the lines; `none`
models an exception escaping the loop. -/
def foldSteps {σ : Type} (f : σ → String → Option σ) : σ → List String → Option σ
  | s, [] => Option.some s
  | s, l :: ls =>
    match f s l with
    | Option.none => Option.none
    | Option.some s2 => foldSteps f s2 ls

/-! #### enclosures (lines 150-198)

The adapter-header branch of `enclosures` contains the source's slip: after
`ret.append(enc)` it assigns a fresh dictionary to the never-used name
`enclosure` instead of `enc`, so `enc` still aliases the record just emitted
and later assignments keep mutating it. The state therefore carries an
`aliased` flag meaning "the last element of `ret` is the same object as
`enc`"; every mutation of `enc` updates that element too. -/

/-- Header regex `^number of enclosures on adapter (\d+) --`. -/
def matchEncAdapter (cs : List Char) : Option (List Char) :=
  match takePre? ("number of enclosures on adapter ".data) cs with
  | Option.none => Option.none
  | Option.some rest =>
    match leadDigits rest with
    | Option.none => Option.none
    | Option.some (d, rest2) =>
      if (takePre? (" --".data) rest2).isSome then Option.some d else Option.none

/-- Header regex `^enclosure (\d+)`. -/
def matchEnclosure (cs : List Char) : Option (List Char) :=
  match takePre? ("enclosure ".data) cs with
  | Option.none => Option.none
  | Option.some rest =>
    match leadDigits rest with
    | Option.none => Option.none
    | Option.some (d, _) => Option.some d

/-- Loop state of `enclosures`. -/
structure EncSt where
  ret : List Record
  enc : Record
  adapterId : Option Int
  aliased : Bool

/-- Initial state of `enclosures`. -/
def encInit : EncSt :=
  { ret := [], enc := [], adapterId := Option.none, aliased := false }

/-- Mutation of the dictionary bound to `enc`: when the last emitted record
is an alias of `enc`, the emitted record changes with it. -/
def encMut (st : EncSt) (r : Record) : EncSt :=
  { st with enc := r, ret := if st.aliased then st.ret.dropLast ++ [r] else st.ret }

/-- One iteration of the `for` loop of `enclosures` (lines 164-193). -/
def encStep (st : EncSt) (line : String) : Option EncSt :=
  match matchEncAdapter line.data with
  | Option.some dcap =>
    (strToNat? dcap).map fun n =>
      -- on a repeated adapter header the source appends `enc` and then
      -- assigns the fresh dictionary to the dead name `enclosure`, leaving
      -- `enc` aliased to the appended record
      let st1 :=
        if rhas st.enc "adapter_id" then
          { st with ret := st.ret ++ [st.enc], aliased := true }
        else st
      let st2 := encMut st1 (rset st1.enc "adapter_id" (PValue.int (Int.ofNat n)))
      { st2 with adapterId := Option.some (Int.ofNat n) }
  | Option.none =>
    match st.adapterId with
    | Option.none => Option.some st
    | Option.some aid =>
      match matchEnclosure line.data with
      | Option.some dcap =>
        (strToNat? dcap).map fun m =>
          if rhas st.enc "id" then
            let st1 := { st with ret := st.ret ++ [st.enc],
                                 enc := [("adapter_id", PValue.int aid)],
                                 aliased := false }
            { st1 with enc := rset st1.enc "id" (PValue.int (Int.ofNat m)) }
          else encMut st (rset st.enc "id" (PValue.int (Int.ofNat m)))
      | Option.none =>
        if rhas st.enc "id" then
          match splitColonOnce line.data with
          | Option.some kv =>
            (toProperty (String.mk kv.1) (String.mk kv.2)).map fun p =>
              if p.1 = "exit_code" then st else encMut st (rset st.enc p.1 p.2)
          | Option.none => Option.some st
        else Option.some st

/-- End-of-loop emission `if len(enc): ret.append(enc)` (lines 195-196). -/
def encFinal (st : EncSt) : List Record :=
  if st.enc.isEmpty then st.ret else st.ret ++ [st.enc]

/-- `MegaCLI.enclosures` as a function of the normalised output lines. -/
def enclosuresFromLines (lines : List String) : Option (List Record) :=
  (foldSteps encStep encInit lines).map encFinal

/-! #### logicaldrives (lines 200-254) -/

/-- Header regex `^adapter (\d+) -- virtual drive information$` (anchored). -/
def matchLdAdapter (cs : List Char) : Option (List Char) :=
  match takePre? ("adapter ".data) cs with
  | Option.none => Option.none
  | Option.some rest =>
    match leadDigits rest with
    | Option.none => Option.none
    | Option.some (d, rest2) =>
      match takePre? (" -- virtual drive information".data) rest2 with
      | Option.some r => if r.isEmpty then Option.some d else Option.none
      | Option.none => Option.none

/-- Header regex `^virtual drive:(\d+)`. -/
def matchVirtualDrive (cs : List Char) : Option (List Char) :=
  match takePre? ("virtual drive:".data) cs with
  | Option.none => Option.none
  | Option.some rest =>
    match leadDigits rest with
    | Option.none => Option.none
    | Option.some (d, _) => Option.some d

/-- Loop state of `logicaldrives`. -/
structure LdSt where
  ret : List Record
  ld : Record
  adapterId : Option Int

/-- Initial state of `logicaldrives`. -/
def ldInit : LdSt :=
  { ret := [], ld := [], adapterId := Option.none }

/-- One iteration of the `for` loop of `logicaldrives` (lines 214-249). -/
def ldStep (st : LdSt) (line : String) : Option LdSt :=
  match matchLdAdapter line.data with
  | Option.some dcap =>
    (strToNat? dcap).map fun n =>
      let base :=
        if rhas st.ld "adapter_id" then { st with ret := st.ret ++ [st.ld], ld := [] }
        else st
      { base with ld := rset base.ld "adapter_id" (PValue.int (Int.ofNat n)),
                  adapterId := Option.some (Int.ofNat n) }
  | Option.none =>
    match st.adapterId with
    | Option.none => Option.some st
    | Option.some aid =>
      match matchVirtualDrive line.data with
      | Option.some dcap =>
        (strToNat? dcap).map fun m =>
          let base :=
            if rhas st.ld "id" then
              { st with ret := st.ret ++ [st.ld], ld := [("adapter_id", PValue.int aid)] }
            else st
          { base with ld := rset base.ld "id" (PValue.int (Int.ofNat m)) }
      | Option.none =>
        if rhas st.ld "id" then
          match splitColonOnce line.data with
          | Option.some kv =>
            (toProperty (String.mk kv.1) (String.mk kv.2)).map fun p =>
              if p.1 = "exit_code" then st
              else
                let v :=
                  if p.1 = "raid_level" then
                    match raidLevelOf p.2 with
                    | Option.some lvl => PValue.int lvl
                    | Option.none => p.2
                  else p.2
                { st with ld := rset st.ld p.1 v }
          | Option.none => Option.some st
        else Option.some st

/-- End-of-loop emission of `logicaldrives` (lines 251-252). -/
def ldFinal (st : LdSt) : List Record :=
  if st.ld.isEmpty then st.ret else st.ret ++ [st.ld]

/-- `MegaCLI.logicaldrives` as a function of the normalised output lines. -/
def logicaldrivesFromLines (lines : List String) : Option (List Record) :=
  (foldSteps ldStep ldInit lines).map ldFinal

/-! #### physicaldrives (lines 256-304) -/

/-- Header regex `^adapter #(\d+)` (used by `physicaldrives` and `adapters`). -/
def matchAdapterHash (cs : List Char) : Option (List Char) :=
  match takePre? ("adapter #".data) cs with
  | Option.none => Option.none
  | Option.some rest =>
    match leadDigits rest with
    | Option.none => Option.none
    | Option.some (d, _) => Option.some d

/-- Header regex `^enclosure device id:(\d+)`. -/
def matchPdEnclosure (cs : List Char) : Option (List Char) :=
  match takePre? ("enclosure device id:".data) cs with
  | Option.none => Option.none
  | Option.some rest =>
    match leadDigits rest with
    | Option.none => Option.none
    | Option.some (d, _) => Option.some d

/-- Loop state of `physicaldrives`. -/
structure PdSt where
  ret : List Record
  pd : Record
  adapterId : Option Int

/-- Initial state of `physicaldrives`. -/
def pdInit : PdSt :=
  { ret := [], pd := [], adapterId := Option.none }

/-- One iteration of the `for` loop of `physicaldrives` (lines 270-299). -/
def pdStep (st : PdSt) (line : String) : Option PdSt :=
  match matchAdapterHash line.data with
  | Option.some dcap =>
    (strToNat? dcap).map fun n =>
      let base :=
        if rhas st.pd "adapter_id" then { st with ret := st.ret ++ [st.pd], pd := [] }
        else st
      { base with pd := rset base.pd "adapter_id" (PValue.int (Int.ofNat n)),
                  adapterId := Option.some (Int.ofNat n) }
  | Option.none =>
    match st.adapterId with
    | Option.none => Option.some st
    | Option.some aid =>
      match matchPdEnclosure line.data with
      | Option.some dcap =>
        (strToNat? dcap).map fun m =>
          let base :=
            if rhas st.pd "enclosure_id" then
              { st with ret := st.ret ++ [st.pd], pd := [("adapter_id", PValue.int aid)] }
            else st
          { base with pd := rset base.pd "enclosure_id" (PValue.int (Int.ofNat m)) }
      | Option.none =>
        if rhas st.pd "enclosure_id" then
          match splitColonOnce line.data with
          | Option.some kv =>
            (toProperty (String.mk kv.1) (String.mk kv.2)).map fun p =>
              if p.1 = "exit_code" then st else { st with pd := rset st.pd p.1 p.2 }
          | Option.none => Option.some st
        else Option.some st

/-- End-of-loop emission of `physicaldrives` (lines 301-302). -/
def pdFinal (st : PdSt) : List Record :=
  if st.pd.isEmpty then st.ret else st.ret ++ [st.pd]

/-- `MegaCLI.physicaldrives` as a function of the normalised output lines. -/
def physicaldrivesFromLines (lines : List String) : Option (List Record) :=
  (foldSteps pdStep pdInit lines).map pdFinal

/-! #### bbu (lines 306-342) -/

/-- Header regex `^bbu status for adapter:(\d+)`. -/
def matchBbuAdapter (cs : List Char) : Option (List Char) :=
  match takePre? ("bbu status for adapter:".data) cs with
  | Option.none => Option.none
  | Option.some rest =>
    match leadDigits rest with
    | Option.none => Option.none
    | Option.some (d, _) => Option.some d

/-- Loop state of `bbu`. -/
structure BbuSt where
  ret : List Record
  bbu : Record

/-- Initial state of `bbu`. -/
def bbuInit : BbuSt :=
  { ret := [], bbu := [] }

/-- One iteration of the `for` loop of `bbu` (lines 319-337). -/
def bbuStep (st : BbuSt) (line : String) : Option BbuSt :=
  match matchBbuAdapter line.data with
  | Option.some dcap =>
    (strToNat? dcap).map fun n =>
      let base :=
        if rhas st.bbu "adapter_id" then { ret := st.ret ++ [st.bbu], bbu := [] }
        else st
      { base with bbu := rset base.bbu "adapter_id" (PValue.int (Int.ofNat n)) }
  | Option.none =>
    if rhas st.bbu "adapter_id" then
      match splitColonOnce line.data with
      | Option.some kv =>
        (toProperty (String.mk kv.1) (String.mk kv.2)).map fun p =>
          if p.1 = "exit_code" then st else { st with bbu := rset st.bbu p.1 p.2 }
      | Option.none => Option.some st
    else Option.some st

/-- End-of-loop emission of `bbu` (lines 339-340). -/
def bbuFinal (st : BbuSt) : List Record :=
  if st.bbu.isEmpty then st.ret else st.ret ++ [st.bbu]

/-- `MegaCLI.bbu` as a function of the normalised output lines. -/
def bbuFromLines (lines : List String) : Option (List Record) :=
  (foldSteps bbuStep bbuInit lines).map bbuFinal

/-! #### adapters (lines 344-381) -/

/-- Loop state of `adapters`. -/
structure AdpSt where
  ret : List Record
  adapter : Record

/-- Initial state of `adapters`. -/
def adpInit : AdpSt :=
  { ret := [], adapter := [] }

/-- One iteration of the `for` loop of `adapters` (lines 358-376). -/
def adpStep (st : AdpSt) (line : String) : Option AdpSt :=
  match matchAdapterHash line.data with
  | Option.some dcap =>
    (strToNat? dcap).map fun n =>
      let base :=
        if rhas st.adapter "id" then { ret := st.ret ++ [st.adapter], adapter := [] }
        else st
      { base with adapter := rset base.adapter "id" (PValue.int (Int.ofNat n)) }
  | Option.none =>
    if rhas st.adapter "id" then
      match splitColonOnce line.data with
      | Option.some kv =>
        (toProperty (String.mk kv.1) (String.mk kv.2)).map fun p =>
          if p.1 = "exit_code" then st else { st with adapter := rset st.adapter p.1 p.2 }
      | Option.none => Option.some st
    else Option.some st

/-- End-of-loop emission of `adapters` (lines 378-379). -/
def adpFinal (st : AdpSt) : List Record :=
  if st.adapter.isEmpty then st.ret else st.ret ++ [st.adapter]

/-- `MegaCLI.adapters` as a function of the normalised output lines. -/
def adaptersFromLines (lines : List String) : Option (List Record) :=
  (foldSteps adpStep adpInit lines).map adpFinal

/-! ### create_ld (lines 383-487)

Arguments are typed as the docstring prescribes, so the `isinstance` failure
branches of the source disappear; optional parameters are `Option`s, and the
source's Python truthiness tests (`if write_policy:`, `if stripe_size:`, ...)
are modelled exactly: `None`, the empty string and zero are falsy. The result
is `Except.error msg` when a `ValueError` is raised — in which case `execute`
is never reached — and `Except.ok cmdline` with the exact command string
passed to `execute` otherwise. -/

/-- A string made of one apostrophe (kept out of literals). -/
def aposS : String := String.mk [aposC]

/-- Arguments of `create_ld`, typed as documented. -/
structure CreateLdArgs where
  raid_level : Int
  devices : List String
  adapter : Int
  write_policy : Option String
  read_policy : Option String
  cache_policy : Option String
  cached_bad_bbu : Option Bool
  size : Option Int
  stripe_size : Option Int
  hot_spares : List String
  after_ld : Option String
  force : Bool

/-- Valid RAID levels of `create_ld` (line 415). -/
def rlList : List Int := [0, 1, 5, 6]

/-- Valid stripe sizes of `create_ld` (line 460). -/
def stripeList : List Int := [8, 16, 32, 64, 128, 256, 512, 1024]

/-- Write-policy step (lines 425-429): skipped when falsy, validated against
WT/WB otherwise. -/
def wpStep (wp : Option String) : Except String (List String) :=
  match wp with
  | Option.none => Except.ok []
  | Option.some s =>
    if s = "" then Except.ok []
    else if s ∈ (["WT", "WB"] : List String) then Except.ok [s]
    else Except.error ("Logical drive" ++ aposS ++ "s write policy must be either WT (write through) or WB (write back)")

/-- Read-policy step (lines 431-435). -/
def rpStep (rp : Option String) : Except String (List String) :=
  match rp with
  | Option.none => Except.ok []
  | Option.some s =>
    if s = "" then Except.ok []
    else if s ∈ (["NORA", "RA", "ADRA"] : List String) then Except.ok [s]
    else Except.error ("Logical drive" ++ aposS ++ "s read policy must be one of NORA (no read ahead), RA (read ahead) or ADRA (adaptive read ahead)")

/-- Cache-policy step (lines 437-441). -/
def cpStep (cp : Option String) : Except String (List String) :=
  match cp with
  | Option.none => Except.ok []
  | Option.some s =>
    if s = "" then Except.ok []
    else if s ∈ (["Direct", "Cached"] : List String) then Except.ok [s]
    else Except.error ("Logical drive" ++ aposS ++ "s cache policy can be either Direct or Cached")

/-- Cached-bad-BBU flag (lines 443-450): compared with `is not None`. -/
def cbbPart (b : Option Bool) : List String :=
  match b with
  | Option.none => []
  | Option.some true => ["CachedBadBBU"]
  | Option.some false => ["NoCachedBadBBU"]

/-- Size argument (lines 452-456): `if size:` skips zero. -/
def sizePart (sz : Option Int) : List String :=
  match sz with
  | Option.none => []
  | Option.some n => if n = 0 then [] else ["-sz" ++ toString n]

/-- Stripe-size step (lines 458-465): `if stripe_size:` skips zero, a nonzero
value is validated against the fixed enumeration. -/
def stripeStep (ss : Option Int) : Except String (List String) :=
  match ss with
  | Option.none => Except.ok []
  | Option.some n =>
    if n = 0 then Except.ok []
    else if n ∈ stripeList then Except.ok ["-strpsz" ++ toString n]
    else Except.error ("Logical drive" ++ aposS ++ "s stripe size must be one of 8, 16, 32, 64, 128, 256, 512, 1024")

/-- Hot-spares argument (lines 467-471). -/
def hspPart (hs : List String) : List String :=
  if hs.length > 0 then ["-Hsp[" ++ String.intercalate "," hs ++ "]"] else []

/-- After-LD argument (lines 473-474): `if after_ld:` skips falsy values. -/
def aldPart (a : Option String) : List String :=
  match a with
  | Option.none => []
  | Option.some s => if s = "" then [] else ["-afterLd " ++ s]

/-- Force flag (lines 476-480). -/
def forcePart (b : Bool) : List String :=
  if b then ["-Force"] else []

/-- Discriminates errors of `Except`. -/
def isErr {ε α : Type} : Except ε α → Bool
  | Except.error _ => true
  | Except.ok _ => false

/-- `MegaCLI.create_ld`: validations and command-string construction, in the
order of the source; the `Except.ok` payload is the exact argument string
handed to `execute` on line 487. -/
def create_ld (a : CreateLdArgs) : Except String String :=
  if a.raid_level ∈ rlList then
    match wpStep a.write_policy with
    | Except.error e => Except.error e
    | Except.ok c1 =>
      match rpStep a.read_policy with
      | Except.error e => Except.error e
      | Except.ok c2 =>
        match cpStep a.cache_policy with
        | Except.error e => Except.error e
        | Except.ok c3 =>
          match stripeStep a.stripe_size with
          | Except.error e => Except.error e
          | Except.ok c6 =>
            Except.ok ("-CfgLDAdd " ++ String.intercalate " "
              ((["-R" ++ toString a.raid_level ++ "[" ++ String.intercalate "," a.devices ++ "]"]
                ++ c1 ++ c2 ++ c3 ++ cbbPart a.cached_bad_bbu ++ sizePart a.size ++ c6
                ++ hspPart a.hot_spares ++ aldPart a.after_ld ++ forcePart a.force
                ++ ["-a" ++ toString a.adapter])))
  else
    Except.error ("Logical drive" ++ aposS ++ "s RAID level must be one of 0, 1, 5 or 6")

/-! ### Predicates used by the invariant claims -/

/-- A record that does not contain the property key `exit_code`. -/
def recNoExit (r : Record) : Bool := !(rhas r "exit_code")

/-- All records of a list lack `exit_code`. -/
def allNoExit (rs : List Record) : Bool := rs.all recNoExit

/-- All records of a parser result lack `exit_code` (vacuous on `none`). -/
def optNoExit (o : Option (List Record)) : Bool :=
  match o with
  | Option.none => true
  | Option.some rs => allNoExit rs

/-- Invariant of the `enclosures` loop state: no emitted record and no open
record contains the key `exit_code`. -/
def encInv (st : EncSt) : Prop :=
  allNoExit st.ret = true ∧ recNoExit st.enc = true

/-- Invariant of the `logicaldrives` loop state. -/
def ldInv (st : LdSt) : Prop :=
  allNoExit st.ret = true ∧ recNoExit st.ld = true

/-- Invariant of the `physicaldrives` loop state. -/
def pdInv (st : PdSt) : Prop :=
  allNoExit st.ret = true ∧ recNoExit st.pd = true

/-- Invariant of the `bbu` loop state. -/
def bbuInv (st : BbuSt) : Prop :=
  allNoExit st.ret = true ∧ recNoExit st.bbu = true

/-- Invariant of the `adapters` loop state. -/
def adpInv (st : AdpSt) : Prop :=
  allNoExit st.ret = true ∧ recNoExit st.adapter = true

/-! ## Helper lemmas -/

theorem isSome_map {α β : Type} (f : α → β) (o : Option α) :
    (o.map f).isSome = o.isSome := by
  cases o <;> rfl

theorem strToNat?_of_digits (ds : List Char) (h1 : ds.isEmpty = false)
    (h2 : ds.all Char.isDigit = true) : strToNat? ds = Option.some (natOfDigits ds) := by
  unfold strToNat?
  simp [h1, h2]

theorem leadDigits_parts (cs d r : List Char) (h : leadDigits cs = Option.some (d, r)) :
    d = cs.takeWhile Char.isDigit ∧ r = cs.dropWhile Char.isDigit ∧
    d.isEmpty = false ∧ d.all Char.isDigit = true := by
  unfold leadDigits at h
  by_cases he : (cs.takeWhile Char.isDigit).isEmpty
  · rw [if_pos he] at h
    exact absurd h (by simp)
  · rw [if_neg he] at h
    have h2 := Option.some.inj h
    have hd : cs.takeWhile Char.isDigit = d := congrArg Prod.fst h2
    have hr : cs.dropWhile Char.isDigit = r := congrArg Prod.snd h2
    subst hd
    subst hr
    exact ⟨rfl, rfl, Bool.eq_false_iff.mpr he, List.all_takeWhile⟩

theorem leadDigits_strToNat (cs d r : List Char) (h : leadDigits cs = Option.some (d, r)) :
    strToNat? d = Option.some (natOfDigits d) := by
  obtain ⟨-, -, h3, h4⟩ := leadDigits_parts cs d r h
  exact strToNat?_of_digits d h3 h4

theorem matchIntPct_digits (cs d : List Char) (h : matchIntPct cs = Option.some d) :
    strToNat? d = Option.some (natOfDigits d) := by
  unfold matchIntPct at h
  split at h
  · exact absurd h (by simp)
  next dd rest heq =>
    split at h
    · cases h
      exact leadDigits_strToNat _ _ _ heq
    · split at h
      · cases h
        exact leadDigits_strToNat _ _ _ heq
      · exact absurd h (by simp)
    · exact absurd h (by simp)

theorem matchFloat_digits (cs d : List Char) (h : matchFloat cs = Option.some d) :
    strToNat? d = Option.some (natOfDigits d) := by
  unfold matchFloat at h
  split at h
  · exact absurd h (by simp)
  next dd rest heq =>
    split at h
    · cases h
      exact leadDigits_strToNat _ _ _ heq
    · split at h
      · cases h
        exact leadDigits_strToNat _ _ _ heq
      · exact absurd h (by simp)
    · exact absurd h (by simp)

theorem matchTemp_digits (cs d : List Char) (h : matchTemp cs = Option.some d) :
    strToNat? d = Option.some (natOfDigits d) := by
  unfold matchTemp at h
  split at h
  · exact absurd h (by simp)
  next dd rest heq =>
    dsimp only at h
    split at h
    · cases h
      exact leadDigits_strToNat _ _ _ heq
    · exact absurd h (by simp)

theorem matchTime_digits (cs d : List Char) (u : String)
    (h : matchTime cs = Option.some (d, u)) :
    strToNat? d = Option.some (natOfDigits d) := by
  unfold matchTime at h
  split at h
  · exact absurd h (by simp)
  next dd rest heq =>
    dsimp only at h
    split at h
    · have h3 : dd = d := congrArg Prod.fst (Option.some.inj h)
      subst h3
      exact leadDigits_strToNat _ _ _ heq
    · exact absurd h (by simp)

theorem fracTake_digits (rest f r : List Char) (h : fracTake rest = (Option.some f, r)) :
    strToNat? f = Option.some (natOfDigits f) := by
  unfold fracTake at h
  split at h
  next rs =>
    split at h
    next ff rr heq =>
      have h3 : ff = f := Option.some.inj (congrArg Prod.fst h)
      subst h3
      exact leadDigits_strToNat _ _ _ heq
    · simp at h
  · simp at h

theorem matchSize_float (cs d : List Char) (fopt : Option (List Char)) (u : String)
    (h : matchSize cs = Option.some (d, fopt, u)) :
    (floatOfParts? d fopt).isSome = true := by
  unfold matchSize at h
  split at h
  · exact absurd h (by simp)
  next dd rest heq =>
    dsimp only at h
    split at h
    next uu hequ =>
      have h3 := Option.some.inj h
      have hd : dd = d := congrArg (fun q => q.1) h3
      have hf : (fracTake rest).1 = fopt := congrArg (fun q => q.2.1) h3
      subst hd
      unfold floatOfParts?
      rw [leadDigits_strToNat _ _ _ heq]
      cases hfo : fopt with
      | none => simp [Option.bind]
      | some f =>
        rw [hfo] at hf
        have h5 : fracTake rest = (Option.some f, (fracTake rest).2) := by
          rw [← hf]
        simp [Option.bind, fracTake_digits _ _ _ h5]
    · exact absurd h (by simp)

theorem toProperty_isSome (k v : String) : (toProperty k v).isSome = true := by
  unfold toProperty
  by_cases h1 : v = "n/a" ∨ v = "none"
  · rw [if_pos h1]
    rfl
  · rw [if_neg h1]
    by_cases h2 : v = "yes"
    · rw [if_pos h2]
      rfl
    · rw [if_neg h2]
      by_cases h3 : v = "no"
      · rw [if_pos h3]
        rfl
      · rw [if_neg h3]
        split
        next d h4 =>
          rw [matchIntPct_digits _ _ h4]
          rfl
        next =>
          split
          next d h5 =>
            rw [matchFloat_digits _ _ h5]
            rfl
          next =>
            split
            next d h6 =>
              have h7 : matchTemp v.data = Option.some d := by
                by_cases hc : containsSub k.data ("temperature".data)
                · rwa [if_pos hc] at h6
                · rw [if_neg hc] at h6
                  exact absurd h6 (by simp)
              rw [matchTemp_digits _ _ h7]
              rfl
            next =>
              split
              next ip fp u h8 =>
                have h9 := matchSize_float _ _ _ _ h8
                cases h10 : floatOfParts? ip fp
                · rw [h10] at h9
                  exact absurd h9 (by simp)
                · rfl
              next =>
                split
                next dcap ucap h11 =>
                  rw [matchTime_digits _ _ _ h11]
                  rfl
                next => rfl

/-! ### Header matcher capture lemmas -/

theorem matchEncAdapter_digits (cs d : List Char) (h : matchEncAdapter cs = Option.some d) :
    strToNat? d = Option.some (natOfDigits d) := by
  unfold matchEncAdapter at h
  split at h
  · exact absurd h (by simp)
  next rest h1 =>
    split at h
    · exact absurd h (by simp)
    next dd rest2 h2 =>
      split at h
      · cases h
        exact leadDigits_strToNat _ _ _ h2
      · exact absurd h (by simp)

theorem matchEnclosure_digits (cs d : List Char) (h : matchEnclosure cs = Option.some d) :
    strToNat? d = Option.some (natOfDigits d) := by
  unfold matchEnclosure at h
  split at h
  · exact absurd h (by simp)
  next rest h1 =>
    split at h
    · exact absurd h (by simp)
    next dd r h2 =>
      cases h
      exact leadDigits_strToNat _ _ _ h2

theorem matchLdAdapter_digits (cs d : List Char) (h : matchLdAdapter cs = Option.some d) :
    strToNat? d = Option.some (natOfDigits d) := by
  unfold matchLdAdapter at h
  split at h
  · exact absurd h (by simp)
  next rest h1 =>
    split at h
    · exact absurd h (by simp)
    next dd rest2 h2 =>
      split at h
      next r h3 =>
        split at h
        · cases h
          exact leadDigits_strToNat _ _ _ h2
        · exact absurd h (by simp)
      · exact absurd h (by simp)

theorem matchVirtualDrive_digits (cs d : List Char) (h : matchVirtualDrive cs = Option.some d) :
    strToNat? d = Option.some (natOfDigits d) := by
  unfold matchVirtualDrive at h
  split at h
  · exact absurd h (by simp)
  next rest h1 =>
    split at h
    · exact absurd h (by simp)
    next dd r h2 =>
      cases h
      exact leadDigits_strToNat _ _ _ h2

theorem matchAdapterHash_digits (cs d : List Char) (h : matchAdapterHash cs = Option.some d) :
    strToNat? d = Option.some (natOfDigits d) := by
  unfold matchAdapterHash at h
  split at h
  · exact absurd h (by simp)
  next rest h1 =>
    split at h
    · exact absurd h (by simp)
    next dd r h2 =>
      cases h
      exact leadDigits_strToNat _ _ _ h2

theorem matchPdEnclosure_digits (cs d : List Char) (h : matchPdEnclosure cs = Option.some d) :
    strToNat? d = Option.some (natOfDigits d) := by
  unfold matchPdEnclosure at h
  split at h
  · exact absurd h (by simp)
  next rest h1 =>
    split at h
    · exact absurd h (by simp)
    next dd r h2 =>
      cases h
      exact leadDigits_strToNat _ _ _ h2

theorem matchBbuAdapter_digits (cs d : List Char) (h : matchBbuAdapter cs = Option.some d) :
    strToNat? d = Option.some (natOfDigits d) := by
  unfold matchBbuAdapter at h
  split at h
  · exact absurd h (by simp)
  next rest h1 =>
    split at h
    · exact absurd h (by simp)
    next dd r h2 =>
      cases h
      exact leadDigits_strToNat _ _ _ h2

/-! ### Parser loop-body totality -/

theorem encStep_isSome (st : EncSt) (l : String) : (encStep st l).isSome = true := by
  unfold encStep
  split
  next d h1 =>
    rw [matchEncAdapter_digits _ _ h1]
    rfl
  next h1 =>
    split
    · rfl
    next aid h2 =>
      split
      next d h3 =>
        rw [matchEnclosure_digits _ _ h3]
        rfl
      next h3 =>
        split
        · split
          next kv h4 =>
            rw [isSome_map]
            exact toProperty_isSome _ _
          next h4 => rfl
        · rfl

theorem ldStep_isSome (st : LdSt) (l : String) : (ldStep st l).isSome = true := by
  unfold ldStep
  split
  next d h1 =>
    rw [matchLdAdapter_digits _ _ h1]
    rfl
  next h1 =>
    split
    · rfl
    next aid h2 =>
      split
      next d h3 =>
        rw [matchVirtualDrive_digits _ _ h3]
        rfl
      next h3 =>
        split
        · split
          next kv h4 =>
            rw [isSome_map]
            exact toProperty_isSome _ _
          next h4 => rfl
        · rfl

theorem pdStep_isSome (st : PdSt) (l : String) : (pdStep st l).isSome = true := by
  unfold pdStep
  split
  next d h1 =>
    rw [matchAdapterHash_digits _ _ h1]
    rfl
  next h1 =>
    split
    · rfl
    next aid h2 =>
      split
      next d h3 =>
        rw [matchPdEnclosure_digits _ _ h3]
        rfl
      next h3 =>
        split
        · split
          next kv h4 =>
            rw [isSome_map]
            exact toProperty_isSome _ _
          next h4 => rfl
        · rfl

theorem bbuStep_isSome (st : BbuSt) (l : String) : (bbuStep st l).isSome = true := by
  unfold bbuStep
  split
  next d h1 =>
    rw [matchBbuAdapter_digits _ _ h1]
    rfl
  next h1 =>
    split
    · split
      next kv h4 =>
        rw [isSome_map]
        exact toProperty_isSome _ _
      next h4 => rfl
    · rfl

theorem adpStep_isSome (st : AdpSt) (l : String) : (adpStep st l).isSome = true := by
  unfold adpStep
  split
  next d h1 =>
    rw [matchAdapterHash_digits _ _ h1]
    rfl
  next h1 =>
    split
    · split
      next kv h4 =>
        rw [isSome_map]
        exact toProperty_isSome _ _
      next h4 => rfl
    · rfl

/-! ### Generic loop lemmas -/

theorem foldSteps_isSome {σ : Type} (f : σ → String → Option σ)
    (hf : ∀ s l, (f s l).isSome = true) (ls : List String) :
    ∀ s, (foldSteps f s ls).isSome = true := by
  induction ls with
  | nil =>
    intro s
    rfl
  | cons a t ih =>
    intro s
    unfold foldSteps
    cases h : f s a with
    | none =>
      have h2 := hf s a
      rw [h] at h2
      exact absurd h2 (by simp)
    | some s2 => exact ih s2

theorem foldSteps_cons {σ : Type} (f : σ → String → Option σ) (s : σ) (a : String)
    (t : List String) :
    foldSteps f s (a :: t) =
      match f s a with
      | Option.none => Option.none
      | Option.some s2 => foldSteps f s2 t := rfl

theorem foldSteps_skip {σ : Type} (f : σ → String → Option σ) (s0 : σ) (P : String → Prop)
    (hstep : ∀ l, P l → f s0 l = Option.some s0) :
    ∀ (pre lines : List String), (∀ l ∈ pre, P l) →
      foldSteps f s0 (pre ++ lines) = foldSteps f s0 lines := by
  intro pre
  induction pre with
  | nil =>
    intro lines _
    rfl
  | cons a t ih =>
    intro lines hp
    have ha : P a := hp a (List.mem_cons_self a t)
    rw [List.cons_append, foldSteps_cons, hstep a ha]
    exact ih lines (fun l hl => hp l (List.mem_cons_of_mem a hl))

theorem foldSteps_inv {σ : Type} (f : σ → String → Option σ) (P : σ → Prop)
    (hstep : ∀ s l s2, f s l = Option.some s2 → P s → P s2) (ls : List String) :
    ∀ s s2, P s → foldSteps f s ls = Option.some s2 → P s2 := by
  induction ls with
  | nil =>
    intro s s2 hs h
    cases h
    exact hs
  | cons a t ih =>
    intro s s2 hs h
    unfold foldSteps at h
    cases h2 : f s a with
    | none =>
      rw [h2] at h
      exact absurd h (by simp)
    | some smid =>
      rw [h2] at h
      exact ih smid s2 (hstep s a smid h2 hs) h

/-! ### Initial-state skip lemmas (lines before the first header) -/

theorem encStep_skip (l : String) (h : matchEncAdapter l.data = Option.none) :
    encStep encInit l = Option.some encInit := by
  unfold encStep
  rw [h]
  rfl

theorem ldStep_skip (l : String) (h : matchLdAdapter l.data = Option.none) :
    ldStep ldInit l = Option.some ldInit := by
  unfold ldStep
  rw [h]
  rfl

theorem pdStep_skip (l : String) (h : matchAdapterHash l.data = Option.none) :
    pdStep pdInit l = Option.some pdInit := by
  unfold pdStep
  rw [h]
  rfl

theorem bbuStep_skip (l : String) (h : matchBbuAdapter l.data = Option.none) :
    bbuStep bbuInit l = Option.some bbuInit := by
  unfold bbuStep
  rw [h]
  rfl

theorem adpStep_skip (l : String) (h : matchAdapterHash l.data = Option.none) :
    adpStep adpInit l = Option.some adpInit := by
  unfold adpStep
  rw [h]
  rfl

/-! ## Claim theorems (first group) -/

/-- Claim C1 is contradicted by the code: the duration branch of
`__to_property` parses `5 mins` but returns 5, not 300, because the unit
branches of the source assign a misspelled dead variable (`mutiplier`) and
the multiplier that is actually used stays 1. The claim requires minutes to
be multiplied by 60 (and hours by 3600, days by 86400). -/
theorem c1_duration_multiplier_dead_evaluation :
    toProperty "k" "5 mins" = Option.some ("k", PValue.int 5) ∧
    toProperty "k" "2 hours" = Option.some ("k", PValue.int 2) ∧
    toProperty "k" "1 day" = Option.some ("k", PValue.int 1) ∧
    (5 : Int) ≠ 5 * 60 ∧ (2 : Int) ≠ 2 * 3600 ∧ (1 : Int) ≠ 1 * 86400 := by
  decide

/-- Claim C2 is contradicted by the code: in `enclosures`, a second
`number of enclosures on adapter N --` header appends the open record but
then assigns the fresh dictionary to the dead name `enclosure` instead of
`enc`, so the just-emitted record is mutated by the new header (its
`adapter_id` becomes 1 although its own lines said adapter 0) and the final
flush emits the same record twice. The claim requires the first emitted
record to stay `adapter_id 0, id 5`. -/
theorem c2_enclosures_second_header_mutates_evaluation :
    enclosuresFromLines
      ["number of enclosures on adapter 0 --", "enclosure 5",
       "number of enclosures on adapter 1 --"] =
    Option.some
      [[("adapter_id", PValue.int 1), ("id", PValue.int 5)],
       [("adapter_id", PValue.int 1), ("id", PValue.int 5)]] := by
  decide

/-- Claim C9 is contradicted by the code for `enclosures`: in the output
below, the record opened by `enclosure 7` inside adapter 3's block is emitted
carrying `adapter_id` 4, because the adapter-header branch of `enclosures`
keeps mutating the emitted record (the fresh dictionary goes to the dead
name `enclosure`). The claim requires that record to carry `adapter_id` 3. -/
theorem c9_enclosures_adapter_id_mutated_evaluation :
    enclosuresFromLines
      ["number of enclosures on adapter 3 --", "enclosure 7", "status:ok",
       "number of enclosures on adapter 4 --"] =
    Option.some
      [[("adapter_id", PValue.int 4), ("id", PValue.int 7), ("status", PValue.str "ok")],
       [("adapter_id", PValue.int 4), ("id", PValue.int 7), ("status", PValue.str "ok")]] := by
  decide

/-- Claim C3 as stated is false: `35.5` matches the decimal pattern, but the
source's pattern `^(\d+)(?:\.\d+)?\s*%?$` captures only the integer digits
and returns `float(m.group(1))`, i.e. 35.0, not 35.5. -/
theorem c3_decimal_fraction_dropped_cx :
    toProperty "k" "35.5" = Option.some ("k", PValue.float 35) ∧
    ((35 : ℚ) ≠ 71 / 2) :=
  ⟨by decide, by norm_num⟩

/-- Claim C7: `__to_property` is total (it never raises: the model's `none`,
which stands for an escaping exception, is never returned) and deterministic
(equal inputs give equal outputs). -/
theorem c7_to_property_total_deterministic (k1 v1 k2 v2 : String) :
    (toProperty k1 v1).isSome = true ∧
    (k1 = k2 → v1 = v2 → toProperty k1 v1 = toProperty k2 v2) :=
  ⟨toProperty_isSome k1 v1, fun hk hv => by rw [hk, hv]⟩

/-- Witness for C7 at a concrete input. -/
theorem c7_to_property_total_deterministic_witness :
    (toProperty "size" "512 mb").isSome = true ∧
    toProperty "size" "512 mb" = toProperty "size" "512 mb" :=
  ⟨(c7_to_property_total_deterministic "size" "512 mb" "size" "512 mb").1,
   (c7_to_property_total_deterministic "size" "512 mb" "size" "512 mb").2 rfl rfl⟩

/-- Claim C4: `execute` fails exactly on a non-zero (truthy) exit status; the
error carries the exit code and the right-stripped stderr text; a zero exit
status returns the normalised stdout lines. -/
theorem c4_execute_error_iff (rc : Int) (out err : String) :
    (isErr (execute rc out err) = true ↔ rc ≠ 0) ∧
    (rc ≠ 0 → execute rc out err = Except.error (rc, String.mk (pyRstrip err.data))) ∧
    (rc = 0 → execute rc out err = Except.ok (normalizeLines out)) := by
  unfold execute
  by_cases h : rc = 0 <;> simp [h, isErr]

/-- Witness for C4 at concrete inputs, on both sides of the iff. -/
theorem c4_execute_error_iff_witness :
    execute 2 "x" "boom \n" = Except.error (2, "boom") ∧
    execute 0 "ok" "" = Except.ok (normalizeLines "ok") := by
  constructor
  · have h := (c4_execute_error_iff 2 "x" "boom \n").2.1 (by decide)
    rw [h, show String.mk (pyRstrip ("boom \n".data)) = "boom" from by decide]
  · exact (c4_execute_error_iff 0 "ok" "").2.2 rfl

/-- Claim C8: every parsing routine, applied to any finite list of lines, is
total (the model's `none`, standing for an escaping exception, never occurs —
so a possibly empty list of records is always returned), and lines before
the first recognised header (the outermost header pattern of the respective
routine) are discarded: prepending any such lines leaves the result
unchanged. -/
theorem c8_parsers_total_and_prefix_discard :
    (∀ lines : List String,
      (enclosuresFromLines lines).isSome = true ∧
      (logicaldrivesFromLines lines).isSome = true ∧
      (physicaldrivesFromLines lines).isSome = true ∧
      (bbuFromLines lines).isSome = true ∧
      (adaptersFromLines lines).isSome = true) ∧
    (∀ pre lines : List String,
      ((∀ l ∈ pre, matchEncAdapter l.data = Option.none) →
        enclosuresFromLines (pre ++ lines) = enclosuresFromLines lines) ∧
      ((∀ l ∈ pre, matchLdAdapter l.data = Option.none) →
        logicaldrivesFromLines (pre ++ lines) = logicaldrivesFromLines lines) ∧
      ((∀ l ∈ pre, matchAdapterHash l.data = Option.none) →
        physicaldrivesFromLines (pre ++ lines) = physicaldrivesFromLines lines) ∧
      ((∀ l ∈ pre, matchBbuAdapter l.data = Option.none) →
        bbuFromLines (pre ++ lines) = bbuFromLines lines) ∧
      ((∀ l ∈ pre, matchAdapterHash l.data = Option.none) →
        adaptersFromLines (pre ++ lines) = adaptersFromLines lines)) := by
  constructor
  · intro lines
    refine ⟨?_, ?_, ?_, ?_, ?_⟩
    · unfold enclosuresFromLines
      rw [isSome_map]
      exact foldSteps_isSome encStep encStep_isSome lines encInit
    · unfold logicaldrivesFromLines
      rw [isSome_map]
      exact foldSteps_isSome ldStep ldStep_isSome lines ldInit
    · unfold physicaldrivesFromLines
      rw [isSome_map]
      exact foldSteps_isSome pdStep pdStep_isSome lines pdInit
    · unfold bbuFromLines
      rw [isSome_map]
      exact foldSteps_isSome bbuStep bbuStep_isSome lines bbuInit
    · unfold adaptersFromLines
      rw [isSome_map]
      exact foldSteps_isSome adpStep adpStep_isSome lines adpInit
  · intro pre lines
    refine ⟨?_, ?_, ?_, ?_, ?_⟩
    · intro hp
      unfold enclosuresFromLines
      rw [foldSteps_skip encStep encInit _ (fun l h => encStep_skip l h) pre lines hp]
    · intro hp
      unfold logicaldrivesFromLines
      rw [foldSteps_skip ldStep ldInit _ (fun l h => ldStep_skip l h) pre lines hp]
    · intro hp
      unfold physicaldrivesFromLines
      rw [foldSteps_skip pdStep pdInit _ (fun l h => pdStep_skip l h) pre lines hp]
    · intro hp
      unfold bbuFromLines
      rw [foldSteps_skip bbuStep bbuInit _ (fun l h => bbuStep_skip l h) pre lines hp]
    · intro hp
      unfold adaptersFromLines
      rw [foldSteps_skip adpStep adpInit _ (fun l h => adpStep_skip l h) pre lines hp]

/-- Witness for C8: concrete totality results, and concrete discarded
prefixes (a junk line, and a nested header appearing before the first
outer header), with the hypotheses checked by `decide`. -/
theorem c8_parsers_total_and_prefix_discard_witness :
    (enclosuresFromLines ["enclosure 5", "number of enclosures on adapter 0 --"]).isSome = true ∧
    (bbuFromLines ["truncated"]).isSome = true ∧
    enclosuresFromLines (["enclosure 5"] ++ ["number of enclosures on adapter 0 --"]) =
      enclosuresFromLines ["number of enclosures on adapter 0 --"] ∧
    adaptersFromLines (["some garbage"] ++ ["adapter #0"]) = adaptersFromLines ["adapter #0"] :=
  ⟨(c8_parsers_total_and_prefix_discard.1 ["enclosure 5", "number of enclosures on adapter 0 --"]).1,
   (c8_parsers_total_and_prefix_discard.1 ["truncated"]).2.2.2.1,
   (c8_parsers_total_and_prefix_discard.2 ["enclosure 5"]
      ["number of enclosures on adapter 0 --"]).1 (by decide),
   (c8_parsers_total_and_prefix_discard.2 ["some garbage"] ["adapter #0"]).2.2.2.2 (by decide)⟩

/-! ### Record lemmas and the exit_code invariant -/

theorem rhas_rset_other (r : Record) (k : String) (v : PValue) (k2 : String)
    (h : ¬(k = k2)) : rhas (rset r k v) k2 = rhas r k2 := by
  induction r with
  | nil => simp [rset, rhas, h]
  | cons p t ih =>
    obtain ⟨k0, v0⟩ := p
    unfold rset
    by_cases hk : k0 = k
    · rw [if_pos hk]
      rfl
    · rw [if_neg hk]
      unfold rhas at ih ⊢
      rw [List.any_cons, List.any_cons, ih]

theorem all_dropLast {α : Type} (p : α → Bool) (l : List α) (h : l.all p = true) :
    l.dropLast.all p = true := by
  induction l with
  | nil => rfl
  | cons a t ih =>
    cases t with
    | nil => rfl
    | cons b t2 =>
      have h1 : p a = true ∧ ((b :: t2).all p = true) := by simpa using h
      have h2 := ih h1.2
      show (a :: (b :: t2).dropLast).all p = true
      simp [h1.1, h2]

theorem allNoExit_append_single (rs : List Record) (r : Record) (h1 : allNoExit rs = true)
    (h2 : recNoExit r = true) : allNoExit (rs ++ [r]) = true := by
  simp [allNoExit, List.all_append] at h1 ⊢
  exact ⟨h1, h2⟩

theorem allNoExit_dropLast (rs : List Record) (h : allNoExit rs = true) :
    allNoExit rs.dropLast = true :=
  all_dropLast recNoExit rs h

theorem recNoExit_rset (r : Record) (k : String) (v : PValue) (h : ¬(k = "exit_code")) :
    recNoExit (rset r k v) = recNoExit r := by
  unfold recNoExit
  rw [rhas_rset_other r k v "exit_code" h]

theorem encMut_inv (st : EncSt) (r : Record) (hi : encInv st) (hr : recNoExit r = true) :
    encInv (encMut st r) := by
  refine ⟨?_, hr⟩
  show allNoExit (if st.aliased then st.ret.dropLast ++ [r] else st.ret) = true
  by_cases ha : st.aliased
  · rw [if_pos ha]
    exact allNoExit_append_single _ _ (allNoExit_dropLast _ hi.1) hr
  · rw [if_neg ha]
    exact hi.1

theorem encStep_inv (st : EncSt) (l : String) (st2 : EncSt)
    (h : encStep st l = Option.some st2) (hi : encInv st) : encInv st2 := by
  have hneA : ¬("adapter_id" = "exit_code") := by decide
  have hneI : ¬("id" = "exit_code") := by decide
  unfold encStep at h
  split at h
  next d h1 =>
    cases hs : strToNat? d with
    | none =>
      rw [hs] at h
      exact absurd h (by simp)
    | some n =>
      rw [hs] at h
      simp only [Option.map] at h
      cases h
      have hrec : recNoExit (rset st.enc "adapter_id" (PValue.int (Int.ofNat n))) = true := by
        rw [recNoExit_rset _ _ _ hneA]
        exact hi.2
      by_cases hb : rhas st.enc "adapter_id" = true
      · rw [if_pos hb]
        exact encMut_inv { st with ret := st.ret ++ [st.enc], aliased := true }
          (rset st.enc "adapter_id" (PValue.int (Int.ofNat n)))
          ⟨allNoExit_append_single _ _ hi.1 hi.2, hi.2⟩ hrec
      · rw [if_neg hb]
        exact encMut_inv st (rset st.enc "adapter_id" (PValue.int (Int.ofNat n))) hi hrec
  next h1 =>
    split at h
    · cases h
      exact hi
    next aid h2 =>
      split at h
      next d h3 =>
        cases hs : strToNat? d with
        | none =>
          rw [hs] at h
          exact absurd h (by simp)
        | some m =>
          rw [hs] at h
          simp only [Option.map] at h
          cases h
          by_cases hb : rhas st.enc "id" = true
          · rw [if_pos hb]
            refine ⟨allNoExit_append_single _ _ hi.1 hi.2, ?_⟩
            rw [recNoExit_rset _ _ _ hneI]
            rfl
          · rw [if_neg hb]
            have hrec : recNoExit (rset st.enc "id" (PValue.int (Int.ofNat m))) = true := by
              rw [recNoExit_rset _ _ _ hneI]
              exact hi.2
            exact encMut_inv st (rset st.enc "id" (PValue.int (Int.ofNat m))) hi hrec
      next h3 =>
        split at h
        · split at h
          next kv h4 =>
            cases ht : toProperty (String.mk kv.1) (String.mk kv.2) with
            | none =>
              rw [ht] at h
              exact absurd h (by simp)
            | some p =>
              rw [ht] at h
              simp only [Option.map] at h
              cases h
              by_cases hk : p.1 = "exit_code"
              · rw [if_pos hk]
                exact hi
              · rw [if_neg hk]
                have hrec : recNoExit (rset st.enc p.1 p.2) = true := by
                  rw [recNoExit_rset _ _ _ hk]
                  exact hi.2
                exact encMut_inv st (rset st.enc p.1 p.2) hi hrec
          next h4 =>
            cases h
            exact hi
        · cases h
          exact hi

theorem ldStep_inv (st : LdSt) (l : String) (st2 : LdSt)
    (h : ldStep st l = Option.some st2) (hi : ldInv st) : ldInv st2 := by
  have hneA : ¬("adapter_id" = "exit_code") := by decide
  have hneI : ¬("id" = "exit_code") := by decide
  unfold ldStep at h
  split at h
  next d h1 =>
    cases hs : strToNat? d with
    | none =>
      rw [hs] at h
      exact absurd h (by simp)
    | some n =>
      rw [hs] at h
      simp only [Option.map] at h
      cases h
      by_cases hb : rhas st.ld "adapter_id" = true
      · rw [if_pos hb]
        refine ⟨allNoExit_append_single _ _ hi.1 hi.2, ?_⟩
        rw [recNoExit_rset _ _ _ hneA]
        rfl
      · rw [if_neg hb]
        refine ⟨hi.1, ?_⟩
        rw [recNoExit_rset _ _ _ hneA]
        exact hi.2
  next h1 =>
    split at h
    · cases h
      exact hi
    next aid h2 =>
      split at h
      next d h3 =>
        cases hs : strToNat? d with
        | none =>
          rw [hs] at h
          exact absurd h (by simp)
        | some m =>
          rw [hs] at h
          simp only [Option.map] at h
          cases h
          by_cases hb : rhas st.ld "id" = true
          · rw [if_pos hb]
            refine ⟨allNoExit_append_single _ _ hi.1 hi.2, ?_⟩
            rw [recNoExit_rset _ _ _ hneI]
            rfl
          · rw [if_neg hb]
            refine ⟨hi.1, ?_⟩
            rw [recNoExit_rset _ _ _ hneI]
            exact hi.2
      next h3 =>
        split at h
        · split at h
          next kv h4 =>
            cases ht : toProperty (String.mk kv.1) (String.mk kv.2) with
            | none =>
              rw [ht] at h
              exact absurd h (by simp)
            | some p =>
              rw [ht] at h
              simp only [Option.map] at h
              cases h
              by_cases hk : p.1 = "exit_code"
              · rw [if_pos hk]
                exact hi
              · rw [if_neg hk]
                refine ⟨hi.1, ?_⟩
                rw [recNoExit_rset _ _ _ hk]
                exact hi.2
          next h4 =>
            cases h
            exact hi
        · cases h
          exact hi

theorem pdStep_inv (st : PdSt) (l : String) (st2 : PdSt)
    (h : pdStep st l = Option.some st2) (hi : pdInv st) : pdInv st2 := by
  have hneA : ¬("adapter_id" = "exit_code") := by decide
  have hneE : ¬("enclosure_id" = "exit_code") := by decide
  unfold pdStep at h
  split at h
  next d h1 =>
    cases hs : strToNat? d with
    | none =>
      rw [hs] at h
      exact absurd h (by simp)
    | some n =>
      rw [hs] at h
      simp only [Option.map] at h
      cases h
      by_cases hb : rhas st.pd "adapter_id" = true
      · rw [if_pos hb]
        refine ⟨allNoExit_append_single _ _ hi.1 hi.2, ?_⟩
        rw [recNoExit_rset _ _ _ hneA]
        rfl
      · rw [if_neg hb]
        refine ⟨hi.1, ?_⟩
        rw [recNoExit_rset _ _ _ hneA]
        exact hi.2
  next h1 =>
    split at h
    · cases h
      exact hi
    next aid h2 =>
      split at h
      next d h3 =>
        cases hs : strToNat? d with
        | none =>
          rw [hs] at h
          exact absurd h (by simp)
        | some m =>
          rw [hs] at h
          simp only [Option.map] at h
          cases h
          by_cases hb : rhas st.pd "enclosure_id" = true
          · rw [if_pos hb]
            refine ⟨allNoExit_append_single _ _ hi.1 hi.2, ?_⟩
            rw [recNoExit_rset _ _ _ hneE]
            rfl
          · rw [if_neg hb]
            refine ⟨hi.1, ?_⟩
            rw [recNoExit_rset _ _ _ hneE]
            exact hi.2
      next h3 =>
        split at h
        · split at h
          next kv h4 =>
            cases ht : toProperty (String.mk kv.1) (String.mk kv.2) with
            | none =>
              rw [ht] at h
              exact absurd h (by simp)
            | some p =>
              rw [ht] at h
              simp only [Option.map] at h
              cases h
              by_cases hk : p.1 = "exit_code"
              · rw [if_pos hk]
                exact hi
              · rw [if_neg hk]
                refine ⟨hi.1, ?_⟩
                rw [recNoExit_rset _ _ _ hk]
                exact hi.2
          next h4 =>
            cases h
            exact hi
        · cases h
          exact hi

theorem bbuStep_inv (st : BbuSt) (l : String) (st2 : BbuSt)
    (h : bbuStep st l = Option.some st2) (hi : bbuInv st) : bbuInv st2 := by
  have hneA : ¬("adapter_id" = "exit_code") := by decide
  unfold bbuStep at h
  split at h
  next d h1 =>
    cases hs : strToNat? d with
    | none =>
      rw [hs] at h
      exact absurd h (by simp)
    | some n =>
      rw [hs] at h
      simp only [Option.map] at h
      cases h
      by_cases hb : rhas st.bbu "adapter_id" = true
      · rw [if_pos hb]
        refine ⟨allNoExit_append_single _ _ hi.1 hi.2, ?_⟩
        rw [recNoExit_rset _ _ _ hneA]
        rfl
      · rw [if_neg hb]
        refine ⟨hi.1, ?_⟩
        rw [recNoExit_rset _ _ _ hneA]
        exact hi.2
  next h1 =>
    split at h
    · split at h
      next kv h4 =>
        cases ht : toProperty (String.mk kv.1) (String.mk kv.2) with
        | none =>
          rw [ht] at h
          exact absurd h (by simp)
        | some p =>
          rw [ht] at h
          simp only [Option.map] at h
          cases h
          by_cases hk : p.1 = "exit_code"
          · rw [if_pos hk]
            exact hi
          · rw [if_neg hk]
            refine ⟨hi.1, ?_⟩
            rw [recNoExit_rset _ _ _ hk]
            exact hi.2
      next h4 =>
        cases h
        exact hi
    · cases h
      exact hi

theorem adpStep_inv (st : AdpSt) (l : String) (st2 : AdpSt)
    (h : adpStep st l = Option.some st2) (hi : adpInv st) : adpInv st2 := by
  have hneI : ¬("id" = "exit_code") := by decide
  unfold adpStep at h
  split at h
  next d h1 =>
    cases hs : strToNat? d with
    | none =>
      rw [hs] at h
      exact absurd h (by simp)
    | some n =>
      rw [hs] at h
      simp only [Option.map] at h
      cases h
      by_cases hb : rhas st.adapter "id" = true
      · rw [if_pos hb]
        refine ⟨allNoExit_append_single _ _ hi.1 hi.2, ?_⟩
        rw [recNoExit_rset _ _ _ hneI]
        rfl
      · rw [if_neg hb]
        refine ⟨hi.1, ?_⟩
        rw [recNoExit_rset _ _ _ hneI]
        exact hi.2
  next h1 =>
    split at h
    · split at h
      next kv h4 =>
        cases ht : toProperty (String.mk kv.1) (String.mk kv.2) with
        | none =>
          rw [ht] at h
          exact absurd h (by simp)
        | some p =>
          rw [ht] at h
          simp only [Option.map] at h
          cases h
          by_cases hk : p.1 = "exit_code"
          · rw [if_pos hk]
            exact hi
          · rw [if_neg hk]
            refine ⟨hi.1, ?_⟩
            rw [recNoExit_rset _ _ _ hk]
            exact hi.2
      next h4 =>
        cases h
        exact hi
    · cases h
      exact hi

theorem encFinal_noExit (st : EncSt) (h : encInv st) : allNoExit (encFinal st) = true := by
  unfold encFinal
  by_cases he : st.enc.isEmpty = true
  · rw [if_pos he]
    exact h.1
  · rw [if_neg he]
    exact allNoExit_append_single _ _ h.1 h.2

theorem ldFinal_noExit (st : LdSt) (h : ldInv st) : allNoExit (ldFinal st) = true := by
  unfold ldFinal
  by_cases he : st.ld.isEmpty = true
  · rw [if_pos he]
    exact h.1
  · rw [if_neg he]
    exact allNoExit_append_single _ _ h.1 h.2

theorem pdFinal_noExit (st : PdSt) (h : pdInv st) : allNoExit (pdFinal st) = true := by
  unfold pdFinal
  by_cases he : st.pd.isEmpty = true
  · rw [if_pos he]
    exact h.1
  · rw [if_neg he]
    exact allNoExit_append_single _ _ h.1 h.2

theorem bbuFinal_noExit (st : BbuSt) (h : bbuInv st) : allNoExit (bbuFinal st) = true := by
  unfold bbuFinal
  by_cases he : st.bbu.isEmpty = true
  · rw [if_pos he]
    exact h.1
  · rw [if_neg he]
    exact allNoExit_append_single _ _ h.1 h.2

theorem adpFinal_noExit (st : AdpSt) (h : adpInv st) : allNoExit (adpFinal st) = true := by
  unfold adpFinal
  by_cases he : st.adapter.isEmpty = true
  · rw [if_pos he]
    exact h.1
  · rw [if_neg he]
    exact allNoExit_append_single _ _ h.1 h.2

/-- Claim C10: no record returned by any of the five query parsers ever
contains the property key `exit_code`: every parser skips a property line
whose normalised key is `exit_code`, and no header assignment introduces it,
so every record of every result lacks the key (vacuously when the loop
raises, which by C8 never happens). -/
theorem c10_no_exit_code_key (lines : List String) :
    optNoExit (enclosuresFromLines lines) = true ∧
    optNoExit (logicaldrivesFromLines lines) = true ∧
    optNoExit (physicaldrivesFromLines lines) = true ∧
    optNoExit (bbuFromLines lines) = true ∧
    optNoExit (adaptersFromLines lines) = true := by
  refine ⟨?_, ?_, ?_, ?_, ?_⟩
  · unfold enclosuresFromLines
    cases hf : foldSteps encStep encInit lines with
    | none => rfl
    | some st =>
      exact encFinal_noExit st
        (foldSteps_inv encStep encInv encStep_inv lines encInit st ⟨rfl, rfl⟩ hf)
  · unfold logicaldrivesFromLines
    cases hf : foldSteps ldStep ldInit lines with
    | none => rfl
    | some st =>
      exact ldFinal_noExit st
        (foldSteps_inv ldStep ldInv ldStep_inv lines ldInit st ⟨rfl, rfl⟩ hf)
  · unfold physicaldrivesFromLines
    cases hf : foldSteps pdStep pdInit lines with
    | none => rfl
    | some st =>
      exact pdFinal_noExit st
        (foldSteps_inv pdStep pdInv pdStep_inv lines pdInit st ⟨rfl, rfl⟩ hf)
  · unfold bbuFromLines
    cases hf : foldSteps bbuStep bbuInit lines with
    | none => rfl
    | some st =>
      exact bbuFinal_noExit st
        (foldSteps_inv bbuStep bbuInv bbuStep_inv lines bbuInit st ⟨rfl, rfl⟩ hf)
  · unfold adaptersFromLines
    cases hf : foldSteps adpStep adpInit lines with
    | none => rfl
    | some st =>
      exact adpFinal_noExit st
        (foldSteps_inv adpStep adpInv adpStep_inv lines adpInit st ⟨rfl, rfl⟩ hf)

/-! ### Shape lemmas for the value patterns -/

theorem takeWhile_append_all {α : Type} (p : α → Bool) (l r : List α)
    (h : l.all p = true) : (l ++ r).takeWhile p = l ++ r.takeWhile p :=
  List.takeWhile_append_of_pos (fun a ha => List.all_eq_true.mp h a ha)

theorem dropWhile_append_all {α : Type} (p : α → Bool) (l r : List α)
    (h : l.all p = true) : (l ++ r).dropWhile p = r.dropWhile p :=
  List.dropWhile_append_of_pos (fun a ha => List.all_eq_true.mp h a ha)

theorem takeWhile_nil_of_head {α : Type} (p : α → Bool) (c : α) (t : List α)
    (h : p c = false) : (c :: t).takeWhile p = [] := by
  simp [List.takeWhile_cons, h]

theorem dropWhile_eq_self_of_takeWhile_nil {α : Type} (p : α → Bool) (l : List α)
    (h : l.takeWhile p = []) : l.dropWhile p = l := by
  cases l with
  | nil => rfl
  | cons a t =>
    rw [List.takeWhile_cons] at h
    by_cases hp : p a = true
    · rw [if_pos hp] at h
      exact absurd h (by simp)
    · rw [List.dropWhile_cons, if_neg hp]

theorem head_all_cons {α : Type} (p : α → Bool) (c : α) (t : List α)
    (h : (c :: t).all p = true) : p c = true ∧ t.all p = true := by
  simpa [List.all_cons, Bool.and_eq_true] using h

theorem space_not_digit (c : Char) (h : isPySpace c = true) : Char.isDigit c = false := by
  unfold isPySpace at h
  simp only [Bool.or_eq_true, decide_eq_true_eq] at h
  rcases h with ((((h | h) | h) | h) | h) | h <;> subst h <;> decide

theorem space_ne_dot (c : Char) (h : isPySpace c = true) : ¬(c = '.') := by
  unfold isPySpace at h
  simp only [Bool.or_eq_true, decide_eq_true_eq] at h
  rcases h with ((((h | h) | h) | h) | h) | h <;> subst h <;> decide

theorem leadDigits_shape (ds rest : List Char) (h1 : ds.isEmpty = false)
    (h2 : ds.all Char.isDigit = true) (h3 : rest.takeWhile Char.isDigit = []) :
    leadDigits (ds ++ rest) = Option.some (ds, rest) := by
  show (if ((ds ++ rest).takeWhile Char.isDigit).isEmpty then Option.none
        else Option.some ((ds ++ rest).takeWhile Char.isDigit,
                          (ds ++ rest).dropWhile Char.isDigit)) =
      Option.some (ds, rest)
  rw [takeWhile_append_all _ _ _ h2, h3, List.append_nil,
      dropWhile_append_all _ _ _ h2, dropWhile_eq_self_of_takeWhile_nil _ _ h3]
  simp [h1]

theorem takeWhile_digit_nil_ws (ws rest2 : List Char) (hws : ws.all isPySpace = true)
    (h2 : rest2.takeWhile Char.isDigit = []) :
    (ws ++ rest2).takeWhile Char.isDigit = [] := by
  cases ws with
  | nil => exact h2
  | cons c t =>
    exact takeWhile_nil_of_head _ _ _ (space_not_digit c (head_all_cons _ _ _ hws).1)

theorem digit_head_not_literal (c : Char) (t : List Char) (hc : Char.isDigit c = true) :
    (String.mk (c :: t) ≠ "n/a") ∧ (String.mk (c :: t) ≠ "none") ∧
    (String.mk (c :: t) ≠ "yes") ∧ (String.mk (c :: t) ≠ "no") := by
  refine ⟨?_, ?_, ?_, ?_⟩ <;> intro h
  · have hd : c :: t = ('n' :: '/' :: 'a' :: []) := congrArg String.data h
    injection hd with h1 _
    rw [h1] at hc
    exact absurd hc (by decide)
  · have hd : c :: t = ('n' :: 'o' :: 'n' :: 'e' :: []) := congrArg String.data h
    injection hd with h1 _
    rw [h1] at hc
    exact absurd hc (by decide)
  · have hd : c :: t = ('y' :: 'e' :: 's' :: []) := congrArg String.data h
    injection hd with h1 _
    rw [h1] at hc
    exact absurd hc (by decide)
  · have hd : c :: t = ('n' :: 'o' :: []) := congrArg String.data h
    injection hd with h1 _
    rw [h1] at hc
    exact absurd hc (by decide)

/-- Claim C3 (amended): for every raw value of the decimal shape — digits, a
decimal point, digits, optional whitespace, optional trailing percent sign —
`__to_property` returns a float equal to the integer part of the number
written in the string; the fractional digits are matched but not captured by
the source's pattern, so they are discarded. -/
theorem c3_decimal_int_part_amended (key : String) (ds fs ws pctL : List Char)
    (hds : ds.isEmpty = false) (hdig : ds.all Char.isDigit = true)
    (hfs : fs.isEmpty = false) (hfdig : fs.all Char.isDigit = true)
    (hws : ws.all isPySpace = true) (hpct : pctL = [] ∨ pctL = ['%']) :
    toProperty key (String.mk (ds ++ '.' :: (fs ++ (ws ++ pctL)))) =
      Option.some (normKey key, PValue.float ((natOfDigits ds : ℚ))) := by
  obtain ⟨c, ds', rfl⟩ : ∃ c ds', ds = c :: ds' := by
    cases ds with
    | nil => simp at hds
    | cons c t => exact ⟨c, t, rfl⟩
  obtain ⟨f, fs', rfl⟩ : ∃ f fs', fs = f :: fs' := by
    cases fs with
    | nil => simp at hfs
    | cons f t => exact ⟨f, t, rfl⟩
  have hc : Char.isDigit c = true := (head_all_cons _ _ _ hdig).1
  have hpct_take : pctL.takeWhile Char.isDigit = [] := by
    rcases hpct with h | h <;> subst h
    · rfl
    · decide
  have hpct_space : pctL.takeWhile isPySpace = [] := by
    rcases hpct with h | h <;> subst h
    · rfl
    · decide
  have hwp_take : (ws ++ pctL).takeWhile Char.isDigit = [] :=
    takeWhile_digit_nil_ws ws pctL hws hpct_take
  have hdrop_wp : (ws ++ pctL).dropWhile isPySpace = pctL := by
    rw [dropWhile_append_all _ _ _ hws, dropWhile_eq_self_of_takeWhile_nil _ _ hpct_space]
  have hrest_take : (('.' :: ((f :: fs') ++ (ws ++ pctL))).takeWhile Char.isDigit) = [] :=
    takeWhile_nil_of_head _ _ _ (by decide)
  have hLead : leadDigits ((c :: ds') ++ '.' :: ((f :: fs') ++ (ws ++ pctL))) =
      Option.some (c :: ds', '.' :: ((f :: fs') ++ (ws ++ pctL))) :=
    leadDigits_shape _ _ hds hdig hrest_take
  have hdotspace : ¬(isPySpace '.' = true) := by decide
  have hrest_drop : (('.' :: ((f :: fs') ++ (ws ++ pctL))).dropWhile isPySpace) =
      '.' :: ((f :: fs') ++ (ws ++ pctL)) :=
    List.dropWhile_cons_of_neg hdotspace
  have hLead2 : leadDigits ((f :: fs') ++ (ws ++ pctL)) = Option.some (f :: fs', ws ++ pctL) :=
    leadDigits_shape _ _ hfs hfdig hwp_take
  have hInt : matchIntPct ((c :: ds') ++ '.' :: ((f :: fs') ++ (ws ++ pctL))) = Option.none := by
    simp only [matchIntPct, hLead]
    rw [hrest_drop]
    rfl
  have hfr : fracSkip ('.' :: ((f :: fs') ++ (ws ++ pctL))) = ws ++ pctL := by
    simp only [fracSkip, hLead2]
  have hFloat : matchFloat ((c :: ds') ++ '.' :: ((f :: fs') ++ (ws ++ pctL))) =
      Option.some (c :: ds') := by
    simp only [matchFloat, hLead, hfr]
    rw [hdrop_wp]
    rcases hpct with h | h <;> subst h
    · rfl
    · rfl
  have hne := digit_head_not_literal c (ds' ++ '.' :: ((f :: fs') ++ (ws ++ pctL))) hc
  have hne1 : ¬(String.mk ((c :: ds') ++ '.' :: ((f :: fs') ++ (ws ++ pctL))) = "n/a" ∨
      String.mk ((c :: ds') ++ '.' :: ((f :: fs') ++ (ws ++ pctL))) = "none") :=
    fun hor => hor.elim hne.1 hne.2.1
  have hne2 : ¬(String.mk ((c :: ds') ++ '.' :: ((f :: fs') ++ (ws ++ pctL))) = "yes") :=
    hne.2.2.1
  have hne3 : ¬(String.mk ((c :: ds') ++ '.' :: ((f :: fs') ++ (ws ++ pctL))) = "no") :=
    hne.2.2.2
  unfold toProperty
  rw [if_neg hne1, if_neg hne2, if_neg hne3]
  rw [show (String.mk ((c :: ds') ++ '.' :: ((f :: fs') ++ (ws ++ pctL)))).data =
        (c :: ds') ++ '.' :: ((f :: fs') ++ (ws ++ pctL)) from rfl]
  rw [hInt, hFloat]
  show (strToNat? (c :: ds')).map
      (fun n => (normKey key, PValue.float ((n : ℚ)))) =
    Option.some (normKey key, PValue.float ((natOfDigits (c :: ds') : ℚ)))
  rw [strToNat?_of_digits _ hds hdig]
  rfl

/-- Witness for the amended C3 at the concrete value `35.5`. -/
theorem c3_decimal_int_part_amended_witness :
    toProperty "k" "35.5" = Option.some ("k", PValue.float 35) := by
  have h := c3_decimal_int_part_amended "k" ['3', '5'] ['5'] [] []
    (by decide) (by decide) (by decide) (by decide) (by decide) (Or.inl rfl)
  rw [show String.mk (['3', '5'] ++ '.' :: (['5'] ++ ([] ++ []))) = "35.5" from by decide] at h
  rw [h]
  decide

/-! ### Size-pattern lemmas (claim C5) -/

theorem fracSkip_cons_ne (a : Char) (t : List Char) (ha : ¬(a = '.')) :
    fracSkip (a :: t) = a :: t := by
  unfold fracSkip
  split
  next rs heq =>
    injection heq with h1 _
    exact absurd h1 ha
  next => rfl

theorem fracTake_cons_ne (a : Char) (t : List Char) (ha : ¬(a = '.')) :
    fracTake (a :: t) = (Option.none, a :: t) := by
  unfold fracTake
  split
  next rs heq =>
    injection heq with h1 _
    exact absurd h1 ha
  next => rfl

theorem floatOfParts?_sizeQ (ds : List Char) (fopt : Option (List Char))
    (hds : ds.isEmpty = false) (hdig : ds.all Char.isDigit = true)
    (hf : ∀ fs, fopt = Option.some fs → fs.isEmpty = false ∧ fs.all Char.isDigit = true) :
    floatOfParts? ds fopt = Option.some (sizeQ ds fopt) := by
  unfold floatOfParts? sizeQ
  rw [strToNat?_of_digits _ hds hdig]
  cases fopt with
  | none => simp [Option.bind]
  | some fs =>
    obtain ⟨h1, h2⟩ := hf fs rfl
    simp [Option.bind, strToNat?_of_digits _ h1 h2]

theorem toProperty_size_general (key : String) (ds : List Char) (fopt : Option (List Char))
    (ws : List Char) (uh : Char) (ut tail : List Char) (u : String)
    (hds : ds.isEmpty = false) (hdig : ds.all Char.isDigit = true)
    (hf : ∀ fs, fopt = Option.some fs → fs.isEmpty = false ∧ fs.all Char.isDigit = true)
    (hws : ws.all isPySpace = true)
    (hd1 : Char.isDigit uh = false) (hd2 : isPySpace uh = false) (hd3 : ¬(uh = '.'))
    (hd4 : ¬(uh = '%'))
    (hd5 : takePre? ['c'] (uh :: (ut ++ tail)) = Option.none)
    (hd6 : takePre? ("degree celcius".data) (uh :: (ut ++ tail)) = Option.none)
    (hunit : unitMatch (uh :: (ut ++ tail)) = Option.some u) :
    toProperty key (String.mk (ds ++ (fracL fopt ++ (ws ++ uh :: (ut ++ tail))))) =
      Option.some (normKey key, PValue.float (sizeQ ds fopt * sizeMult u)) := by
  obtain ⟨c, ds', rfl⟩ : ∃ c ds', ds = c :: ds' := by
    cases ds with
    | nil => simp at hds
    | cons c t => exact ⟨c, t, rfl⟩
  have hc : Char.isDigit c = true := (head_all_cons _ _ _ hdig).1
  have hwU_take : ((ws ++ uh :: (ut ++ tail)).takeWhile Char.isDigit) = [] :=
    takeWhile_digit_nil_ws ws _ hws (takeWhile_nil_of_head _ _ _ hd1)
  have hwU_drop : ((ws ++ uh :: (ut ++ tail)).dropWhile isPySpace) = uh :: (ut ++ tail) := by
    rw [dropWhile_append_all _ _ _ hws]
    exact dropWhile_eq_self_of_takeWhile_nil _ _ (takeWhile_nil_of_head _ _ _ hd2)
  have hFP := floatOfParts?_sizeQ (c :: ds') fopt hds hdig hf
  cases fopt with
  | none =>
    show toProperty key (String.mk ((c :: ds') ++ (ws ++ uh :: (ut ++ tail)))) =
      Option.some (normKey key, PValue.float (sizeQ (c :: ds') Option.none * sizeMult u))
    have hLead : leadDigits ((c :: ds') ++ (ws ++ uh :: (ut ++ tail))) =
        Option.some (c :: ds', ws ++ uh :: (ut ++ tail)) :=
      leadDigits_shape _ _ hds hdig hwU_take
    have hfsk : fracSkip (ws ++ uh :: (ut ++ tail)) = ws ++ uh :: (ut ++ tail) := by
      cases ws with
      | nil => exact fracSkip_cons_ne uh _ hd3
      | cons w wt =>
        exact fracSkip_cons_ne w _ (space_ne_dot w (head_all_cons _ _ _ hws).1)
    have hftk : fracTake (ws ++ uh :: (ut ++ tail)) =
        (Option.none, ws ++ uh :: (ut ++ tail)) := by
      cases ws with
      | nil => exact fracTake_cons_ne uh _ hd3
      | cons w wt =>
        exact fracTake_cons_ne w _ (space_ne_dot w (head_all_cons _ _ _ hws).1)
    have hInt : matchIntPct ((c :: ds') ++ (ws ++ uh :: (ut ++ tail))) = Option.none := by
      simp only [matchIntPct, hLead]
      rw [hwU_drop]
      cases hUT : ut ++ tail with
      | nil =>
        show (if uh = '%' then Option.some (c :: ds') else Option.none) = Option.none
        exact if_neg hd4
      | cons x xs => rfl
    have hFloat : matchFloat ((c :: ds') ++ (ws ++ uh :: (ut ++ tail))) = Option.none := by
      simp only [matchFloat, hLead, hfsk]
      rw [hwU_drop]
      cases hUT : ut ++ tail with
      | nil =>
        show (if uh = '%' then Option.some (c :: ds') else Option.none) = Option.none
        exact if_neg hd4
      | cons x xs => rfl
    have hTemp : matchTemp ((c :: ds') ++ (ws ++ uh :: (ut ++ tail))) = Option.none := by
      simp only [matchTemp, hLead]
      rw [hwU_drop, hd5, hd6]
      rfl
    have hSize : matchSize ((c :: ds') ++ (ws ++ uh :: (ut ++ tail))) =
        Option.some (c :: ds', Option.none, u) := by
      simp only [matchSize, hLead, hftk, hwU_drop, hunit]
    have hne := digit_head_not_literal c (ds' ++ (ws ++ uh :: (ut ++ tail))) hc
    have hne1 : ¬(String.mk ((c :: ds') ++ (ws ++ uh :: (ut ++ tail))) = "n/a" ∨
        String.mk ((c :: ds') ++ (ws ++ uh :: (ut ++ tail))) = "none") :=
      fun hor => hor.elim hne.1 hne.2.1
    have hne2 : ¬(String.mk ((c :: ds') ++ (ws ++ uh :: (ut ++ tail))) = "yes") := hne.2.2.1
    have hne3 : ¬(String.mk ((c :: ds') ++ (ws ++ uh :: (ut ++ tail))) = "no") := hne.2.2.2
    unfold toProperty
    rw [if_neg hne1, if_neg hne2, if_neg hne3]
    rw [show (String.mk ((c :: ds') ++ (ws ++ uh :: (ut ++ tail)))).data =
          (c :: ds') ++ (ws ++ uh :: (ut ++ tail)) from rfl]
    rw [hInt, hFloat, hTemp, ite_self, hSize]
    show (floatOfParts? (c :: ds') Option.none).map
        (fun q => (normKey key, PValue.float (q * sizeMult u))) =
      Option.some (normKey key, PValue.float (sizeQ (c :: ds') Option.none * sizeMult u))
    rw [hFP]
    rfl
  | some fs =>
    obtain ⟨f, fs', rfl⟩ : ∃ f fs', fs = f :: fs' := by
      obtain ⟨h1, -⟩ := hf fs rfl
      cases fs with
      | nil => simp at h1
      | cons f t => exact ⟨f, t, rfl⟩
    obtain ⟨hf1, hf2⟩ := hf (f :: fs') rfl
    show toProperty key
        (String.mk ((c :: ds') ++ '.' :: ((f :: fs') ++ (ws ++ uh :: (ut ++ tail))))) =
      Option.some (normKey key,
        PValue.float (sizeQ (c :: ds') (Option.some (f :: fs')) * sizeMult u))
    have hrest_take : (('.' :: ((f :: fs') ++ (ws ++ uh :: (ut ++ tail)))).takeWhile
        Char.isDigit) = [] :=
      takeWhile_nil_of_head _ _ _ (by decide)
    have hLead : leadDigits ((c :: ds') ++ '.' :: ((f :: fs') ++ (ws ++ uh :: (ut ++ tail)))) =
        Option.some (c :: ds', '.' :: ((f :: fs') ++ (ws ++ uh :: (ut ++ tail)))) :=
      leadDigits_shape _ _ hds hdig hrest_take
    have hLead2 : leadDigits ((f :: fs') ++ (ws ++ uh :: (ut ++ tail))) =
        Option.some (f :: fs', ws ++ uh :: (ut ++ tail)) :=
      leadDigits_shape _ _ hf1 hf2
        (takeWhile_digit_nil_ws ws _ hws (takeWhile_nil_of_head _ _ _ hd1))
    have hdotspace : ¬(isPySpace '.' = true) := by decide
    have hrest_drop : (('.' :: ((f :: fs') ++ (ws ++ uh :: (ut ++ tail)))).dropWhile
        isPySpace) = '.' :: ((f :: fs') ++ (ws ++ uh :: (ut ++ tail))) :=
      List.dropWhile_cons_of_neg hdotspace
    have hfr : fracSkip ('.' :: ((f :: fs') ++ (ws ++ uh :: (ut ++ tail)))) =
        ws ++ uh :: (ut ++ tail) := by
      simp only [fracSkip, hLead2]
    have hftk : fracTake ('.' :: ((f :: fs') ++ (ws ++ uh :: (ut ++ tail)))) =
        (Option.some (f :: fs'), ws ++ uh :: (ut ++ tail)) := by
      simp only [fracTake, hLead2]
    have hInt : matchIntPct ((c :: ds') ++ '.' :: ((f :: fs') ++ (ws ++ uh :: (ut ++ tail)))) =
        Option.none := by
      simp only [matchIntPct, hLead]
      rw [hrest_drop]
      rfl
    have hFloat : matchFloat ((c :: ds') ++ '.' :: ((f :: fs') ++ (ws ++ uh :: (ut ++ tail)))) =
        Option.none := by
      simp only [matchFloat, hLead, hfr]
      rw [hwU_drop]
      cases hUT : ut ++ tail with
      | nil =>
        show (if uh = '%' then Option.some (c :: ds') else Option.none) = Option.none
        exact if_neg hd4
      | cons x xs => rfl
    have hTemp : matchTemp ((c :: ds') ++ '.' :: ((f :: fs') ++ (ws ++ uh :: (ut ++ tail)))) =
        Option.none := by
      simp only [matchTemp, hLead]
      rw [hrest_drop]
      rfl
    have hSize : matchSize ((c :: ds') ++ '.' :: ((f :: fs') ++ (ws ++ uh :: (ut ++ tail)))) =
        Option.some (c :: ds', Option.some (f :: fs'), u) := by
      simp only [matchSize, hLead, hftk, hwU_drop, hunit]
    have hne := digit_head_not_literal c
      (ds' ++ '.' :: ((f :: fs') ++ (ws ++ uh :: (ut ++ tail)))) hc
    have hne1 : ¬(String.mk ((c :: ds') ++ '.' :: ((f :: fs') ++ (ws ++ uh :: (ut ++ tail)))) = "n/a" ∨
        String.mk ((c :: ds') ++ '.' :: ((f :: fs') ++ (ws ++ uh :: (ut ++ tail)))) = "none") :=
      fun hor => hor.elim hne.1 hne.2.1
    have hne2 : ¬(String.mk ((c :: ds') ++ '.' :: ((f :: fs') ++ (ws ++ uh :: (ut ++ tail)))) = "yes") :=
      hne.2.2.1
    have hne3 : ¬(String.mk ((c :: ds') ++ '.' :: ((f :: fs') ++ (ws ++ uh :: (ut ++ tail)))) = "no") :=
      hne.2.2.2
    unfold toProperty
    rw [if_neg hne1, if_neg hne2, if_neg hne3]
    rw [show (String.mk ((c :: ds') ++ '.' :: ((f :: fs') ++ (ws ++ uh :: (ut ++ tail))))).data =
          (c :: ds') ++ '.' :: ((f :: fs') ++ (ws ++ uh :: (ut ++ tail))) from rfl]
    rw [hInt, hFloat, hTemp, ite_self, hSize]
    show (floatOfParts? (c :: ds') (Option.some (f :: fs'))).map
        (fun q => (normKey key, PValue.float (q * sizeMult u))) =
      Option.some (normKey key,
        PValue.float (sizeQ (c :: ds') (Option.some (f :: fs')) * sizeMult u))
    rw [hFP]
    rfl

/-- Claim C5: a raw value of the size shape — a number (with optional
fraction), optional whitespace, a unit suffix among b/kb/mb/gb/tb/pb,
arbitrary trailing text — coerces to a float equal to the number multiplied
by the binary unit multiplier (b = 1, kb = 1024, mb = 1024², gb = 1024³,
tb = 1024⁴, pb = 1024⁵), i.e. the size in bytes. -/
theorem c5_size_in_bytes (key : String) (ds : List Char) (fopt : Option (List Char))
    (ws tail : List Char) (u : String)
    (hds : ds.isEmpty = false) (hdig : ds.all Char.isDigit = true)
    (hf : ∀ fs, fopt = Option.some fs → fs.isEmpty = false ∧ fs.all Char.isDigit = true)
    (hws : ws.all isPySpace = true)
    (hu : u ∈ (["b", "kb", "mb", "gb", "tb", "pb"] : List String)) :
    toProperty key (String.mk (ds ++ (fracL fopt ++ (ws ++ (u.data ++ tail))))) =
      Option.some (normKey key, PValue.float (sizeQ ds fopt * sizeMult u)) := by
  fin_cases hu
  · exact toProperty_size_general key ds fopt ws 'b' [] tail "b" hds hdig hf hws
      (by decide) (by decide) (by decide) (by decide) rfl rfl rfl
  · exact toProperty_size_general key ds fopt ws 'k' ['b'] tail "kb" hds hdig hf hws
      (by decide) (by decide) (by decide) (by decide) rfl rfl rfl
  · exact toProperty_size_general key ds fopt ws 'm' ['b'] tail "mb" hds hdig hf hws
      (by decide) (by decide) (by decide) (by decide) rfl rfl rfl
  · exact toProperty_size_general key ds fopt ws 'g' ['b'] tail "gb" hds hdig hf hws
      (by decide) (by decide) (by decide) (by decide) rfl rfl rfl
  · exact toProperty_size_general key ds fopt ws 't' ['b'] tail "tb" hds hdig hf hws
      (by decide) (by decide) (by decide) (by decide) rfl rfl rfl
  · exact toProperty_size_general key ds fopt ws 'p' ['b'] tail "pb" hds hdig hf hws
      (by decide) (by decide) (by decide) (by decide) rfl rfl rfl

/-- Witness for C5 at the concrete value `5.25 kb` (5.25 × 1024 = 5376). -/
theorem c5_size_in_bytes_witness :
    toProperty "k" "5.25 kb" = Option.some ("k", PValue.float 5376) := by
  have h := c5_size_in_bytes "k" ['5'] (Option.some ['2', '5']) [' '] [] "kb"
    (by decide) (by decide)
    (fun fs hfs => by cases hfs; exact ⟨by decide, by decide⟩)
    (by decide) (by decide)
  rw [show String.mk (['5'] ++ (fracL (Option.some ['2', '5']) ++
        ([' '] ++ ("kb".data ++ ([] : List Char))))) = "5.25 kb" from by decide] at h
  rw [h]
  have h1 : normKey "k" = "k" := by decide
  have h2 : sizeQ ['5'] (Option.some ['2', '5']) * sizeMult "kb" = 5376 := by
    show ((natOfDigits ['5'] : ℚ) +
        (natOfDigits ['2', '5'] : ℚ) / ((10 : ℚ) ^ (2 : ℕ))) * sizeMult "kb" = 5376
    have hn1 : natOfDigits ['5'] = 5 := by decide
    have hn2 : natOfDigits ['2', '5'] = 25 := by decide
    rw [hn1, hn2, show sizeMult "kb" = 1024 from rfl]
    norm_num
  rw [h1, h2]

/-! ### create_ld validation lemmas (claim C6) -/

theorem wpStep_err (s : String) (hne : ¬(s = ""))
    (hmem : ¬(s ∈ (["WT", "WB"] : List String))) :
    isErr (wpStep (Option.some s)) = true := by
  show isErr (if s = "" then Except.ok []
      else if s ∈ (["WT", "WB"] : List String) then Except.ok [s]
      else Except.error ("Logical drive" ++ aposS ++
        "s write policy must be either WT (write through) or WB (write back)")) = true
  rw [if_neg hne, if_neg hmem]
  rfl

theorem rpStep_err (s : String) (hne : ¬(s = ""))
    (hmem : ¬(s ∈ (["NORA", "RA", "ADRA"] : List String))) :
    isErr (rpStep (Option.some s)) = true := by
  show isErr (if s = "" then Except.ok []
      else if s ∈ (["NORA", "RA", "ADRA"] : List String) then Except.ok [s]
      else Except.error ("Logical drive" ++ aposS ++
        "s read policy must be one of NORA (no read ahead), RA (read ahead) or ADRA (adaptive read ahead)")) = true
  rw [if_neg hne, if_neg hmem]
  rfl

theorem cpStep_err (s : String) (hne : ¬(s = ""))
    (hmem : ¬(s ∈ (["Direct", "Cached"] : List String))) :
    isErr (cpStep (Option.some s)) = true := by
  show isErr (if s = "" then Except.ok []
      else if s ∈ (["Direct", "Cached"] : List String) then Except.ok [s]
      else Except.error ("Logical drive" ++ aposS ++
        "s cache policy can be either Direct or Cached")) = true
  rw [if_neg hne, if_neg hmem]
  rfl

theorem stripeStep_err (n : Int) (hne : ¬(n = 0)) (hmem : ¬(n ∈ stripeList)) :
    isErr (stripeStep (Option.some n)) = true := by
  show isErr (if n = 0 then Except.ok []
      else if n ∈ stripeList then Except.ok ["-strpsz" ++ toString n]
      else Except.error ("Logical drive" ++ aposS ++
        "s stripe size must be one of 8, 16, 32, 64, 128, 256, 512, 1024")) = true
  rw [if_neg hne, if_neg hmem]
  rfl

/-- Claim C6 as stated is false at a concrete input: stripe_size 0 is
provided and is not in the allowed enumeration {8, ..., 1024}, yet
`create_ld` raises no ValueError — the source's `if stripe_size:` treats 0
as falsy and skips the validation — and the command string is built and
handed to `execute`, spawning a process. -/
theorem c6_falsy_stripe_size_cx :
    create_ld { raid_level := 0, devices := [], adapter := 0,
                write_policy := Option.none, read_policy := Option.none,
                cache_policy := Option.none, cached_bad_bbu := Option.none,
                size := Option.none, stripe_size := Option.some 0,
                hot_spares := [], after_ld := Option.none, force := false } =
      Except.ok "-CfgLDAdd -R0[] -a0" ∧
    ¬((0 : Int) ∈ stripeList) :=
  ⟨rfl, by decide⟩

/-- Claim C6 (amended): `create_ld` raises a ValueError — modelled as
returning `Except.error` before any command string for `execute` is
produced, so no process is spawned — whenever `raid_level ∉ {0, 1, 5, 6}`,
or a provided truthy `write_policy` is not in {WT, WB}, or a provided truthy
`read_policy` is not in {NORA, RA, ADRA}, or a provided truthy
`cache_policy` is not in {Direct, Cached}, or a provided truthy (non-zero)
`stripe_size` is not in {8, 16, 32, 64, 128, 256, 512, 1024}. Falsy provided
values — the empty string and zero — are skipped by the source's truthiness
tests (`if write_policy:`, `if stripe_size:`) and raise nothing. -/
theorem c6_create_ld_validation_amended (a : CreateLdArgs) :
    (¬(a.raid_level ∈ rlList) → isErr (create_ld a) = true) ∧
    (∀ s, a.write_policy = Option.some s → ¬(s = "") →
      ¬(s ∈ (["WT", "WB"] : List String)) → isErr (create_ld a) = true) ∧
    (∀ s, a.read_policy = Option.some s → ¬(s = "") →
      ¬(s ∈ (["NORA", "RA", "ADRA"] : List String)) → isErr (create_ld a) = true) ∧
    (∀ s, a.cache_policy = Option.some s → ¬(s = "") →
      ¬(s ∈ (["Direct", "Cached"] : List String)) → isErr (create_ld a) = true) ∧
    (∀ n, a.stripe_size = Option.some n → ¬(n = 0) →
      ¬(n ∈ stripeList) → isErr (create_ld a) = true) := by
  refine ⟨?_, ?_, ?_, ?_, ?_⟩
  · intro hr
    unfold create_ld
    rw [if_neg hr]
    rfl
  · intro s hw hne hmem
    have herr := wpStep_err s hne hmem
    rw [← hw] at herr
    unfold create_ld
    by_cases hr : a.raid_level ∈ rlList
    · rw [if_pos hr]
      cases hwp : wpStep a.write_policy with
      | error e => rfl
      | ok c1 =>
        rw [hwp] at herr
        simp [isErr] at herr
    · rw [if_neg hr]
      rfl
  · intro s hw hne hmem
    have herr := rpStep_err s hne hmem
    rw [← hw] at herr
    unfold create_ld
    by_cases hr : a.raid_level ∈ rlList
    · rw [if_pos hr]
      cases hwp : wpStep a.write_policy with
      | error e => rfl
      | ok c1 =>
        cases hrp : rpStep a.read_policy with
        | error e => rfl
        | ok c2 =>
          rw [hrp] at herr
          simp [isErr] at herr
    · rw [if_neg hr]
      rfl
  · intro s hw hne hmem
    have herr := cpStep_err s hne hmem
    rw [← hw] at herr
    unfold create_ld
    by_cases hr : a.raid_level ∈ rlList
    · rw [if_pos hr]
      cases hwp : wpStep a.write_policy with
      | error e => rfl
      | ok c1 =>
        cases hrp : rpStep a.read_policy with
        | error e => rfl
        | ok c2 =>
          cases hcp : cpStep a.cache_policy with
          | error e => rfl
          | ok c3 =>
            rw [hcp] at herr
            simp [isErr] at herr
    · rw [if_neg hr]
      rfl
  · intro n hn hne hmem
    have herr := stripeStep_err n hne hmem
    rw [← hn] at herr
    unfold create_ld
    by_cases hr : a.raid_level ∈ rlList
    · rw [if_pos hr]
      cases hwp : wpStep a.write_policy with
      | error e => rfl
      | ok c1 =>
        cases hrp : rpStep a.read_policy with
        | error e => rfl
        | ok c2 =>
          cases hcp : cpStep a.cache_policy with
          | error e => rfl
          | ok c3 =>
            cases hss : stripeStep a.stripe_size with
            | error e => rfl
            | ok c6 =>
              rw [hss] at herr
              simp [isErr] at herr
    · rw [if_neg hr]
      rfl

/-- Witness for the amended C6: RAID level 3 errors; stripe size 7 errors. -/
theorem c6_create_ld_validation_amended_witness :
    isErr (create_ld { raid_level := 3, devices := [], adapter := 0,
                       write_policy := Option.none, read_policy := Option.none,
                       cache_policy := Option.none, cached_bad_bbu := Option.none,
                       size := Option.none, stripe_size := Option.none,
                       hot_spares := [], after_ld := Option.none, force := false }) = true ∧
    isErr (create_ld { raid_level := 0, devices := [], adapter := 0,
                       write_policy := Option.none, read_policy := Option.none,
                       cache_policy := Option.none, cached_bad_bbu := Option.none,
                       size := Option.none, stripe_size := Option.some 7,
                       hot_spares := [], after_ld := Option.none, force := false }) = true :=
  ⟨(c6_create_ld_validation_amended _).1 (by decide),
   (c6_create_ld_validation_amended _).2.2.2.2 7 rfl (by decide) (by decide)⟩

end MegaCli
